import Mathlib

/-!
# Recipe manager (`src/app.js`): shallow embedding and verified properties

The single object `app` of `src/app.js` is embedded as the record `App`; every
method that touches the model (not the DOM) becomes a function on `App`.

Modelling conventions.

* Strings are lists of UTF-16 code units.  `trim` removes the ECMAScript white space
  and line terminator code units.  `String.prototype.toLowerCase` is not defined
  here: every function that calls it takes it as its first argument, and the
  theorems hold for every such function.  `toLowerCaseLatin` is its restriction to
  code units below U+0180 and serves for concrete test data.
* Numbers are IEEE 754 doubles: `NaN`, the two infinities, or a rational, and every
  arithmetic operation rounds its exact result to the nearest double, ties to even
  (`toDouble`).  The two zeros are not told apart; the program never divides by a
  computed value, so it cannot observe the difference.
* A dictionary object (`ingredients`, `customIngredients`) has own properties and a
  prototype, which is `Object.prototype` until an assignment to `__proto__`
  replaces it.  Property reads go through the prototype chain.
* Values read from the page (`document.getElementById(..).value`), the answer
  of `confirm`, `Date.now()` and `new Date().toISOString()` are arguments of
  the function that reads them.
* `localStorage` is the field `storage`; rendering has no effect on the model
  and is left out.
-/

namespace RecipeManager

/-! ## Strings -/

/-- JavaScript strings, as sequences of UTF-16 code units. -/
abbrev Str := List UInt16

/-- The UTF-16 code units of one character. -/
def utf16 (c : Char) : List UInt16 :=
  if c.toNat < 65536 then [UInt16.ofNat c.toNat]
  else
    [UInt16.ofNat (55296 + (c.toNat - 65536) / 1024),
     UInt16.ofNat (56320 + (c.toNat - 65536) % 1024)]

/-- The JavaScript string written as a string literal. -/
def str (s : String) : Str := (s.data.map utf16).flatten

/-- The code units that `String.prototype.trim` strips: ECMAScript white space
and line terminators. -/
def isWhiteSpace (c : UInt16) : Bool :=
  c.toNat == 9 || c.toNat == 10 || c.toNat == 11 || c.toNat == 12 || c.toNat == 13 ||
  c.toNat == 32 || c.toNat == 160 || c.toNat == 5760 ||
  (decide (8192 ≤ c.toNat) && decide (c.toNat ≤ 8202)) ||
  c.toNat == 8232 || c.toNat == 8233 || c.toNat == 8239 || c.toNat == 8287 ||
  c.toNat == 12288 || c.toNat == 65279

/-- Built-in `s.trim()`: white space removed from both ends. -/
def trim (s : Str) : Str :=
  ((s.dropWhile isWhiteSpace).reverse.dropWhile isWhiteSpace).reverse

/-- Lower-case form of one code unit below U+0180: Basic Latin, Latin-1 Supplement and
Latin Extended-A, by the Unicode case mappings (U+0130 maps to two code units). -/
def lowerLatinUnit (c : UInt16) : List UInt16 :=
  if 65 ≤ c.toNat ∧ c.toNat ≤ 90 then [UInt16.ofNat (c.toNat + 32)]
  else if 192 ≤ c.toNat ∧ c.toNat ≤ 222 ∧ c.toNat ≠ 215 then [UInt16.ofNat (c.toNat + 32)]
  else if c.toNat = 304 then [105, 775]
  else if c.toNat = 376 then [255]
  else if (256 ≤ c.toNat ∧ c.toNat ≤ 311 ∨ 330 ≤ c.toNat ∧ c.toNat ≤ 375) ∧ c.toNat % 2 = 0 then
    [UInt16.ofNat (c.toNat + 1)]
  else if (313 ≤ c.toNat ∧ c.toNat ≤ 328 ∨ 377 ≤ c.toNat ∧ c.toNat ≤ 382) ∧ c.toNat % 2 = 1 then
    [UInt16.ofNat (c.toNat + 1)]
  else [c]

/-- The restriction of `s.toLowerCase()` to strings of code units below U+0180; other
code units are left as they are.  It is the instance used for concrete test data. -/
def toLowerCaseLatin (s : Str) : Str := (s.map lowerLatinUnit).flatten

/-- Built-in `s.includes(t)` on strings: `t` occurs in `s` as a contiguous block. -/
def strIncludes (s t : Str) : Bool :=
  s.tails.any (fun u => t.isPrefixOf u)

/-- The value `x` is truthy as a string: it is not the empty string. -/
def truthyStr (x : Str) : Bool := !x.isEmpty

/-! ## Numbers -/

/-- A JavaScript number: `NaN`, `Infinity`, `-Infinity` or a finite value. -/
inductive JSNum where
  | nan : JSNum
  | posInf : JSNum
  | negInf : JSNum
  | fin (q : ℚ) : JSNum
  deriving DecidableEq

/-- Truthiness of a number: every number but `0` and `NaN`. -/
def JSNum.truthy : JSNum → Bool
  | .nan => false
  | .fin q => decide (q ≠ 0)
  | _ => true

/-- The quotient `num / den` rounded to the nearest integer, ties to the even one. -/
def roundHalfEven (num den : ℕ) : ℕ :=
  if 2 * (num % den) < den then num / den
  else if den < 2 * (num % den) then num / den + 1
  else if (num / den) % 2 = 0 then num / den
  else num / den + 1

/-- The position of the leading binary digit of `n`, found in at most `fuel` halvings. -/
def binaryLog : ℕ → ℕ → ℕ
  | 0, _ => 0
  | fuel + 1, n => if n < 2 then 0 else binaryLog fuel (n / 2) + 1

/-- Numerator of `a / (d * 2 ^ e)`. -/
def scaleNum (a : ℕ) (e : ℤ) : ℕ := if 0 ≤ e then a else a * 2 ^ (-e).toNat

/-- Denominator of `a / (d * 2 ^ e)`. -/
def scaleDen (d : ℕ) (e : ℤ) : ℕ := if 0 ≤ e then d * 2 ^ e.toNat else d

/-- The exponent `e` of the double nearest to `a / d`: the one with
`2 ^ 52 ≤ a / (d * 2 ^ e) < 2 ^ 53`, and not below `-1074` (subnormal numbers). -/
def binaryExponent (a d : ℕ) : ℤ :=
  let e0 : ℤ := (binaryLog a a : ℤ) - (binaryLog d d : ℤ) - 52
  let e : ℤ := if scaleNum a e0 < 2 ^ 52 * scaleDen d e0 then e0 - 1 else e0
  max e (-1074)

/-- The significand of the double nearest to `a / d`. -/
def significand (a d : ℕ) : ℕ :=
  roundHalfEven (scaleNum a (binaryExponent a d)) (scaleDen d (binaryExponent a d))

/-- The value `m * 2 ^ e` as a rational. -/
def dyadic (m : ℕ) (e : ℤ) : ℚ :=
  if 0 ≤ e then ((m * 2 ^ e.toNat : ℕ) : ℚ) else mkRat (m : ℤ) (2 ^ (-e).toNat)

/-- The double nearest to the rational `q` (round to nearest, ties to even); a magnitude
that rounds to `2 ^ 1024` or more overflows to an infinity. -/
def toDouble (q : ℚ) : JSNum :=
  if q.num = 0 then .fin 0
  else if 0 ≤ binaryExponent q.num.natAbs q.den ∧
      2 ^ 1024 ≤ significand q.num.natAbs q.den * 2 ^ (binaryExponent q.num.natAbs q.den).toNat then
    (if 0 < q.num then .posInf else .negInf)
  else if 0 < q.num then
    .fin (dyadic (significand q.num.natAbs q.den) (binaryExponent q.num.natAbs q.den))
  else .fin (- dyadic (significand q.num.natAbs q.den) (binaryExponent q.num.natAbs q.den))

/-- The sign of a number that is not `NaN`: `true` for the negative ones. -/
def JSNum.negative : JSNum → Bool
  | .negInf => true
  | .fin q => decide (q < 0)
  | _ => false

/-- Operator `x + y` on numbers. -/
def jsAdd : JSNum → JSNum → JSNum
  | .fin a, .fin b => toDouble (a + b)
  | .nan, _ => .nan
  | _, .nan => .nan
  | .posInf, .negInf => .nan
  | .negInf, .posInf => .nan
  | .posInf, _ => .posInf
  | _, .posInf => .posInf
  | .negInf, _ => .negInf
  | _, .negInf => .negInf

/-- Operator `x * y` on numbers. -/
def jsMul : JSNum → JSNum → JSNum
  | .fin a, .fin b => toDouble (a * b)
  | .nan, _ => .nan
  | _, .nan => .nan
  | x, y =>
    if x = .fin 0 ∨ y = .fin 0 then .nan
    else if x.negative = y.negative then .posInf
    else .negInf

/-- The quotient `x / 100`. -/
def jsDiv100 : JSNum → JSNum
  | .fin a => toDouble (a / 100)
  | x => x

/-- Built-in `Math.round(x)`: the integer `floor(x + 1/2)`; `NaN` and the infinities are
returned as they are. -/
def jsRound : JSNum → JSNum
  | .fin a => .fin ((⌊a + 1 / 2⌋ : ℤ) : ℚ)
  | x => x

/-! ## Data model -/

/-- An entry of the ingredient dictionary: `{ kcal, unit }`. -/
structure Ingredient where
  kcal : JSNum
  unit : Str
  deriving DecidableEq

/-- A recipe line: `{ name, amount, unit }`. -/
structure Line where
  name : Str
  amount : JSNum
  unit : Str
  deriving DecidableEq

/-- A committed recipe, as built by `saveRecipe`. -/
structure Recipe where
  id : ℤ
  name : Str
  categories : List Str
  tags : List Str
  ingredients : List Line
  steps : List Str
  totalCalories : JSNum
  createdAt : Str
  deriving DecidableEq

/-- The working copy `currentRecipe`. -/
structure Draft where
  name : Str
  categories : List Str
  tags : List Str
  ingredients : List Line
  steps : List Str
  deriving DecidableEq

/-- A dictionary object keyed by ingredient name.  `entries` are its own properties in
the order of their creation.  `proto` is its prototype: `none` for `Object.prototype`,
`some e` for the object `{ kcal, unit }` that an assignment to `__proto__` installed
(the prototype of that object is `Object.prototype`). -/
structure Dict where
  entries : List (Str × Ingredient)
  proto : Option Ingredient
  deriving DecidableEq

/-- A value read from a dictionary object. -/
inductive JSValue where
  | undefined : JSValue
  | number (x : JSNum) : JSValue
  | string (x : Str) : JSValue
  | ingredient (e : Ingredient) : JSValue
  | builtin : JSValue
  deriving DecidableEq

/-- Truthiness of a value read from a dictionary: `undefined`, `0`, `NaN` and the empty
string are falsy; objects and functions are truthy. -/
def JSValue.truthy : JSValue → Bool
  | .undefined => false
  | .number x => x.truthy
  | .string x => truthyStr x
  | .ingredient _ => true
  | .builtin => true

/-- The number that `v.kcal` gives in an arithmetic expression: the field of an entry;
`undefined`, and so `NaN`, for a number, a string, a function or `Object.prototype`. -/
def JSValue.kcal : JSValue → JSNum
  | .ingredient e => e.kcal
  | _ => .nan

/-- The names of the properties of `Object.prototype`. -/
def objectPrototypeKeys : List Str :=
  [str "constructor", str "hasOwnProperty", str "isPrototypeOf", str "propertyIsEnumerable",
   str "toLocaleString", str "toString", str "valueOf", str "__proto__",
   str "__defineGetter__", str "__defineSetter__", str "__lookupGetter__",
   str "__lookupSetter__"]

/-- The own property `k` of a dictionary, if there is one. -/
def ownGet : List (Str × Ingredient) → Str → Option Ingredient
  | [], _ => none
  | (k', v) :: d, k => if k' = k then some v else ownGet d k

/-- Property read `d[k]`: an own property; else a property of the installed prototype
object (`kcal`, `unit`); else a property of `Object.prototype`, where `__proto__` is a
getter that returns the prototype of `d` and every other member is a function. -/
def dictGet (d : Dict) (k : Str) : JSValue :=
  match ownGet d.entries k with
  | some v => .ingredient v
  | none =>
    match d.proto with
    | some p =>
      if k = str "kcal" then .number p.kcal
      else if k = str "unit" then .string p.unit
      else if k = str "__proto__" then .ingredient p
      else if k ∈ objectPrototypeKeys then .builtin
      else .undefined
    | none =>
      if k ∈ objectPrototypeKeys then .builtin else .undefined

/-- Own property write: an existing key keeps its place, a new key goes last. -/
def ownSet : List (Str × Ingredient) → Str → Ingredient → List (Str × Ingredient)
  | [], k, v => [(k, v)]
  | (k', v') :: d, k, v => if k' = k then (k, v) :: d else (k', v') :: ownSet d k v

/-- Property write `d[k] = v` of an object `v`: an own property is overwritten; else the
key `__proto__` reaches the setter of `Object.prototype`, which replaces the prototype of
`d` and creates no property; else a new own property is created. -/
def dictSet (d : Dict) (k : Str) (v : Ingredient) : Dict :=
  match ownGet d.entries k with
  | some _ => { d with entries := ownSet d.entries k v }
  | none =>
    if k = str "__proto__" then { d with proto := some v }
    else { d with entries := ownSet d.entries k v }

/-- The own keys of a dictionary, in the order of their creation (`Object.keys` returns
the same keys, the integer-like ones first). -/
def ownKeys (d : Dict) : List Str := d.entries.map Prod.fst

/-- The two `localStorage` items written by `saveToStorage`; `none` is an item
that was never written.  `JSON.stringify` writes the own properties of a dictionary. -/
structure Storage where
  recipes : Option (List Recipe)
  customIngredients : Option (List (Str × Ingredient))
  deriving DecidableEq

/-- The state of the object `app`. -/
structure App where
  recipes : List Recipe
  ingredients : Dict
  customIngredients : Dict
  currentRecipe : Draft
  editingRecipe : Option Recipe
  storage : Storage
  deriving DecidableEq

/-! ## Operations -/

/-- Method `saveToStorage()`: both items are overwritten wholesale. -/
def saveToStorage (s : App) : App :=
  { s with storage :=
      { recipes := some s.recipes, customIngredients := some s.customIngredients.entries } }

/-- The predicate of `filterRecipes` for one recipe; `searchTerm` is already lower-cased. -/
def matchesFilter (toLowerCase : Str → Str) (searchTerm categoryFilter tagFilter : Str)
    (recipe : Recipe) : Bool :=
  let matchesSearch := strIncludes (toLowerCase recipe.name) searchTerm ||
    recipe.ingredients.any (fun ing => strIncludes (toLowerCase ing.name) searchTerm)
  let matchesCategory := decide (categoryFilter = str "all") ||
    recipe.categories.contains categoryFilter
  let matchesTag := decide (tagFilter = str "all") || recipe.tags.contains tagFilter
  matchesSearch && matchesCategory && matchesTag

/-- Method `filterRecipes()`: the new state (the same one) and the list handed to
`renderRecipes`.  The three string arguments are the values of `searchInput`,
`categoryFilter` and `tagFilter`. -/
def filterRecipes (toLowerCase : Str → Str) (s : App)
    (searchInput categoryFilter tagFilter : Str) : App × List Recipe :=
  let searchTerm := toLowerCase searchInput
  let filtered := s.recipes.filter (matchesFilter toLowerCase searchTerm categoryFilter tagFilter)
  (s, filtered)

/-- Method `calculateCalories(ingredients)`: the `reduce` over the lines, from `0`. -/
def calculateCalories (toLowerCase : Str → Str) (s : App) (ingredients : List Line) : JSNum :=
  ingredients.foldl
    (fun total ing =>
      let baseIng := dictGet s.ingredients (toLowerCase ing.name)
      if !baseIng.truthy then total
      else
        let multiplier := jsDiv100 ing.amount
        jsAdd total (jsMul baseIng.kcal multiplier))
    (.fin 0)

/-- Method `showAddRecipe()`: a fresh draft with one empty step, nothing being edited. -/
def showAddRecipe (s : App) : App :=
  { s with
    editingRecipe := none
    currentRecipe := { name := [], categories := [], tags := [], ingredients := [], steps := [[]] } }

/-- Built-in `arr.splice(index, 1)` for an integer `index`: a negative index counts from the
end, an index past the end removes nothing. -/
def spliceOne {α : Type} (arr : List α) (index : ℤ) : List α :=
  let start : ℕ := if index < 0 then (arr.length + index).toNat else min index.toNat arr.length
  arr.eraseIdx start

/-- Method `addCategory()`; `input` is the value of `categoryInput`. -/
def addCategory (s : App) (input : Str) : App :=
  let value := trim input
  if truthyStr value && !s.currentRecipe.categories.contains value then
    { s with currentRecipe :=
        { s.currentRecipe with categories := s.currentRecipe.categories ++ [value] } }
  else s

/-- Method `removeCategory(index)`. -/
def removeCategory (s : App) (index : ℤ) : App :=
  { s with currentRecipe :=
      { s.currentRecipe with categories := spliceOne s.currentRecipe.categories index } }

/-- Method `addTag()`; `input` is the value of `tagInput`. -/
def addTag (s : App) (input : Str) : App :=
  let value := trim input
  if truthyStr value && !s.currentRecipe.tags.contains value then
    { s with currentRecipe := { s.currentRecipe with tags := s.currentRecipe.tags ++ [value] } }
  else s

/-- Method `removeTag(index)`. -/
def removeTag (s : App) (index : ℤ) : App :=
  { s with currentRecipe := { s.currentRecipe with tags := spliceOne s.currentRecipe.tags index } }

/-- Method `addIngredient()`; `name` and `unit` are the values of the two selects.  The
amount field is a number input: its value is the empty string (`none`) or a numeral,
which `parseFloat` turns into the nearest double (`some`). -/
def addIngredient (s : App) (name : Str) (amount : Option ℚ) (unit : Str) : App :=
  match amount with
  | none => s
  | some parsed =>
    if truthyStr name then
      { s with currentRecipe :=
          { s.currentRecipe with
            ingredients := s.currentRecipe.ingredients
              ++ [{ name := name, amount := toDouble parsed, unit := unit }] } }
    else s

/-- Method `removeIngredient(index)`. -/
def removeIngredient (s : App) (index : ℤ) : App :=
  { s with currentRecipe :=
      { s.currentRecipe with ingredients := spliceOne s.currentRecipe.ingredients index } }

/-- Built-in `arr.findIndex(p)`: the position of the first element satisfying `p`; `none`
stands for the answer `-1`. -/
def findIndex {α : Type} (p : α → Bool) : List α → Option ℕ
  | [] => none
  | a :: arr => if p a then some 0 else (findIndex p arr).map (· + 1)

/-- What `saveRecipe` did: one of its two alerts, or the recipe it committed. -/
inductive SaveOutcome where
  | emptyName : SaveOutcome
  | noIngredients : SaveOutcome
  | saved (recipe : Recipe) : SaveOutcome
  deriving DecidableEq

/-- The object literal `recipe` of `saveRecipe`; `name` is the trimmed name.
`x || y` takes `y` when `x` is `0` (for the id) or the empty string (for `createdAt`). -/
def buildRecipe (toLowerCase : Str → Str) (s : App) (name : Str) (now : ℤ) (nowIso : Str) :
    Recipe :=
  { id :=
      match s.editingRecipe with
      | some e => if e.id ≠ 0 then e.id else now
      | none => now
    name := name
    categories := s.currentRecipe.categories
    tags := s.currentRecipe.tags
    ingredients := s.currentRecipe.ingredients
    steps := s.currentRecipe.steps.filter (fun st => truthyStr (trim st))
    totalCalories := jsRound (calculateCalories toLowerCase s s.currentRecipe.ingredients)
    createdAt :=
      match s.editingRecipe with
      | some e => if truthyStr e.createdAt then e.createdAt else nowIso
      | none => nowIso }

/-- Method `saveRecipe()`; `recipeName` is the value of the name field, `now` is
`Date.now()` and `nowIso` is `new Date().toISOString()`.  When `findIndex` finds
nothing the assignment `recipes[-1] = recipe` adds no element to the array. -/
def saveRecipe (toLowerCase : Str → Str) (s : App) (recipeName : Str) (now : ℤ)
    (nowIso : Str) : App × SaveOutcome :=
  let name := trim recipeName
  if !truthyStr name then (s, .emptyName)
  else if s.currentRecipe.ingredients.length = 0 then (s, .noIngredients)
  else
    let recipe := buildRecipe toLowerCase s name now nowIso
    let recipes :=
      match s.editingRecipe with
      | some e =>
        match findIndex (fun r => decide (r.id = e.id)) s.recipes with
        | some index => s.recipes.set index recipe
        | none => s.recipes
      | none => s.recipes ++ [recipe]
    (saveToStorage { s with recipes := recipes }, .saved recipe)

/-- Method `editRecipe(id)`: the first recipe with that id becomes the one being edited and
is copied into the draft. -/
def editRecipe (s : App) (id : ℤ) : App :=
  match s.recipes.find? (fun r => decide (r.id = id)) with
  | none => s
  | some recipe =>
    { s with
      editingRecipe := some recipe
      currentRecipe :=
        { name := recipe.name, categories := recipe.categories, tags := recipe.tags,
          ingredients := recipe.ingredients, steps := recipe.steps } }

/-- Method `deleteRecipe(id)`; `confirmed` is the answer of `confirm`. -/
def deleteRecipe (s : App) (confirmed : Bool) (id : ℤ) : App :=
  if confirmed then
    saveToStorage { s with recipes := s.recipes.filter (fun r => decide (r.id ≠ id)) }
  else s

/-- What `saveIngredient` did: its alert, or the key and the entry it assigned. -/
inductive IngredientOutcome where
  | missingFields : IngredientOutcome
  | stored (name : Str) (entry : Ingredient) : IngredientOutcome
  deriving DecidableEq

/-- Method `saveIngredient()`; `nameValue` and `unit` are the values of the two text
fields, `kcal` is `parseFloat` of the third. -/
def saveIngredient (toLowerCase : Str → Str) (s : App) (nameValue : Str) (kcal : JSNum)
    (unit : Str) : App × IngredientOutcome :=
  let name := toLowerCase (trim nameValue)
  if !truthyStr name || !kcal.truthy then (s, .missingFields)
  else
    (saveToStorage
      { s with
        ingredients := dictSet s.ingredients name { kcal := kcal, unit := unit }
        customIngredients := dictSet s.customIngredients name { kcal := kcal, unit := unit } },
     .stored name { kcal := kcal, unit := unit })

/-- Method `addStep()`: one more empty step slot, at the end. -/
def addStep (s : App) : App :=
  { s with currentRecipe := { s.currentRecipe with steps := s.currentRecipe.steps ++ [[]] } }

/-- Method `removeStep(index)`: nothing is removed from a list of one slot or none. -/
def removeStep (s : App) (index : ℤ) : App :=
  if s.currentRecipe.steps.length > 1 then
    { s with currentRecipe :=
        { s.currentRecipe with steps := spliceOne s.currentRecipe.steps index } }
  else s

/-- The assignment `arr[index] = value` for an integer `index`.  A negative index writes
a property that is no element, so the elements stay as they are; an index past the end
lengthens the array, and the holes it leaves are written as empty strings (a hole and
an empty string are both dropped by the filter of `saveRecipe`). -/
def assignAt (arr : List Str) (index : ℤ) (value : Str) : List Str :=
  if index < 0 then arr
  else if index.toNat < arr.length then arr.set index.toNat value
  else arr ++ List.replicate (index.toNat - arr.length) [] ++ [value]

/-- Method `updateStep(index, value)`. -/
def updateStep (s : App) (index : ℤ) (value : Str) : App :=
  { s with currentRecipe :=
      { s.currentRecipe with steps := assignAt s.currentRecipe.steps index value } }

/-- One edit of the categories, tags or ingredient lines of the draft. -/
inductive DraftEdit where
  | addCategory (input : Str) : DraftEdit
  | removeCategory (index : ℤ) : DraftEdit
  | addTag (input : Str) : DraftEdit
  | removeTag (index : ℤ) : DraftEdit
  | addIngredient (name : Str) (amount : Option ℚ) (unit : Str) : DraftEdit
  | removeIngredient (index : ℤ) : DraftEdit
  deriving DecidableEq

/-- The method call that an edit stands for. -/
def applyEdit (s : App) : DraftEdit → App
  | .addCategory input => addCategory s input
  | .removeCategory index => removeCategory s index
  | .addTag input => addTag s input
  | .removeTag index => removeTag s index
  | .addIngredient name amount unit => addIngredient s name amount unit
  | .removeIngredient index => removeIngredient s index

/-- A sequence of edits, applied from left to right. -/
def applyEdits (s : App) (edits : List DraftEdit) : App := edits.foldl applyEdit s

/-- One edit of the steps of the draft. -/
inductive StepEdit where
  | addStep : StepEdit
  | removeStep (index : ℤ) : StepEdit
  | updateStep (index : ℤ) (value : Str) : StepEdit
  deriving DecidableEq

/-- The method call that a step edit stands for. -/
def applyStepEdit (s : App) : StepEdit → App
  | .addStep => addStep s
  | .removeStep index => removeStep s index
  | .updateStep index value => updateStep s index value

/-- A sequence of step edits, applied from left to right. -/
def applyStepEdits (s : App) (edits : List StepEdit) : App := edits.foldl applyStepEdit s

/-! ## Concrete stores used as test data -/

/-- The empty store: no recipes, no ingredients, nothing persisted, a fresh draft. -/
def emptyApp : App :=
  { recipes := [],
    ingredients := { entries := [], proto := none },
    customIngredients := { entries := [], proto := none },
    currentRecipe := { name := [], categories := [], tags := [], ingredients := [], steps := [[]] },
    editingRecipe := none,
    storage := { recipes := none, customIngredients := none } }

/-- The empty store with the dictionary `{egg: {kcal: 155, unit: "100g"}}`. -/
def eggApp : App :=
  { emptyApp with
    ingredients :=
      { entries := [(str "egg", { kcal := .fin 155, unit := str "100g" })], proto := none } }

/-- The line `(egg, 200, "g")`. -/
def eggLine : Line := { name := str "egg", amount := .fin 200, unit := str "g" }

/-- A line whose ingredient is not in the dictionary of `eggApp`. -/
def saltLine : Line := { name := str "Salt", amount := .fin 5, unit := str "g" }

/-- A line named after a member of `Object.prototype`; the name is no key of the
dictionary of `eggApp`. -/
def constructorLine : Line :=
  { name := str "constructor", amount := .fin 100, unit := str "g" }

/-- The store `eggApp` with the draft of the recipe "Omelette": one line `(egg, 200, "g")`
and the steps "Beat eggs" and "Fry". -/
def omeletteApp : App :=
  { eggApp with
    currentRecipe :=
      { name := [], categories := [], tags := [], ingredients := [eggLine],
        steps := [str "Beat eggs", str "Fry"] } }

/-- The empty store with the dictionary `{a: 10 kcal, b: 20 kcal, c: 30 kcal}`. -/
def tenthsApp : App :=
  { emptyApp with
    ingredients :=
      { entries :=
          [(str "a", { kcal := .fin 10, unit := str "100g" }),
           (str "b", { kcal := .fin 20, unit := str "100g" }),
           (str "c", { kcal := .fin 30, unit := str "100g" })],
        proto := none } }

/-- The line `(a, 1, "g")`. -/
def lineA : Line := { name := str "a", amount := .fin 1, unit := str "g" }

/-- The line `(b, 1, "g")`. -/
def lineB : Line := { name := str "b", amount := .fin 1, unit := str "g" }

/-- The line `(c, 1, "g")`. -/
def lineC : Line := { name := str "c", amount := .fin 1, unit := str "g" }

/-- The line `(egg, 100, "g")`. -/
def eggLine100 : Line := { name := str "egg", amount := .fin 100, unit := str "g" }

/-- The line `(rice, 58, "g")`. -/
def riceLine : Line := { name := str "rice", amount := .fin 58, unit := str "g" }

/-- The empty store with the dictionary `{rice: {kcal: 25, unit: "100g"}}` and a draft
with the line `(rice, 58, "g")` twice. -/
def riceApp : App :=
  { emptyApp with
    ingredients :=
      { entries := [(str "rice", { kcal := .fin 25, unit := str "100g" })], proto := none }
    currentRecipe :=
      { name := [], categories := [], tags := [],
        ingredients := [riceLine, riceLine],
        steps := [[]] } }

/-- A stored recipe whose id is `0`. -/
def zeroIdRecipe : Recipe :=
  { id := 0, name := str "Toast", categories := [], tags := [],
    ingredients := [eggLine], steps := [str "Toast"], totalCalories := .fin 310,
    createdAt := str "2023-01-01T00:00:00.000Z" }

/-- The store `eggApp` holding the single recipe `zeroIdRecipe`. -/
def zeroIdApp : App := { eggApp with recipes := [zeroIdRecipe] }

/-- A stored recipe with id `1700000000000`. -/
def toastRecipe : Recipe := { zeroIdRecipe with id := 1700000000000 }

/-- A second stored recipe, with id `1700000000001`. -/
def soupRecipe : Recipe :=
  { id := 1700000000001, name := str "Soup", categories := [str "Dinner"], tags := [],
    ingredients := [saltLine], steps := [], totalCalories := .fin 0,
    createdAt := str "2023-02-02T00:00:00.000Z" }

/-- The store `eggApp` holding `soupRecipe` and then `toastRecipe`. -/
def twoRecipeApp : App := { eggApp with recipes := [soupRecipe, toastRecipe] }

/-- A stored recipe with a Polish name. -/
def zurekRecipe : Recipe :=
  { id := 1700000000002, name := str "Żurek", categories := [], tags := [],
    ingredients := [{ name := str "Śmietana", amount := .fin 100, unit := str "g" }],
    steps := [], totalCalories := .fin 0, createdAt := str "2023-03-03T00:00:00.000Z" }

/-- The store `twoRecipeApp` with `zurekRecipe` added at the end. -/
def threeRecipeApp : App := { eggApp with recipes := [soupRecipe, toastRecipe, zurekRecipe] }

/-- The edits typed for the draft "Dinner egg": the category "Dinner", the category
"dinner", the category " Dinner " again, the tag "quick" and the line `(egg, 200, "g")`. -/
def dinnerEdits : List DraftEdit :=
  [DraftEdit.addCategory (str "Dinner"), DraftEdit.addCategory (str "dinner"),
   DraftEdit.addCategory (str " Dinner "), DraftEdit.addTag (str "quick"),
   DraftEdit.addIngredient (str "egg") (some 200) (str "g")]

/-- The store `eggApp` with a new draft that has the line `(egg, 200, "g")` and the one
blank step that `showAddRecipe` puts in. -/
def blankStepDraftApp : App :=
  addIngredient (showAddRecipe eggApp) (str "egg") (some 200) (str "g")

/-- The store after `blankStepDraftApp` was saved as "Omelette" at time `1700000000000`. -/
def blankStepSavedApp : App :=
  (saveRecipe toLowerCaseLatin blankStepDraftApp (str "Omelette") 1700000000000
    (str "2023-11-14T22:13:20.000Z")).1

/-! ## Specification-side notions -/

/-- The exact rational value of `kcal * (amount / 100)` for a line whose lower-cased name
reads an entry of the dictionary, both numbers being finite; `0` for every other line. -/
def exactLine (toLowerCase : Str → Str) (dict : Dict) (ing : Line) : ℚ :=
  match dictGet dict (toLowerCase ing.name), ing.amount with
  | .ingredient e, .fin a =>
    match e.kcal with
    | .fin k => k * (a / 100)
    | _ => 0
  | _, _ => 0

/-- The exact rational sum of the contributions of the lines. -/
def exactCalories (toLowerCase : Str → Str) (s : App) (lines : List Line) : ℚ :=
  (lines.map (exactLine toLowerCase s.ingredients)).sum

/-- The line `ing` with a finite amount multiplied by `k`. -/
def scaleLine (k : ℚ) (ing : Line) : Line :=
  { ing with
    amount :=
      match ing.amount with
      | .fin a => .fin (k * a)
      | x => x }

/-- The predicate of the filter in the words of its description: the lower-cased search
term occurs in the lower-cased recipe name or in the lower-cased name of some
ingredient line, and the category is "all" or one of the categories of the recipe,
and the tag is "all" or one of its tags. -/
def matchesSpec (toLowerCase : Str → Str) (searchInput categoryFilter tagFilter : Str)
    (recipe : Recipe) : Prop :=
  (toLowerCase searchInput <:+: toLowerCase recipe.name
    ∨ ∃ ing ∈ recipe.ingredients, toLowerCase searchInput <:+: toLowerCase ing.name)
  ∧ (categoryFilter = str "all" ∨ categoryFilter ∈ recipe.categories)
  ∧ (tagFilter = str "all" ∨ tagFilter ∈ recipe.tags)

instance matchesSpecDecidable (toLowerCase : Str → Str)
    (searchInput categoryFilter tagFilter : Str) (recipe : Recipe) :
    Decidable (matchesSpec toLowerCase searchInput categoryFilter tagFilter recipe) := by
  unfold matchesSpec
  infer_instance

/-- An edit step on a list that keeps insertion order: entries were removed, or one new
entry was put last. -/
def KeepsOrder (before after : List Str) : Prop :=
  after.Sublist before ∨ ∃ value, value ∉ before ∧ after = before ++ [value]

/-- A line on which the double arithmetic of `calculateCalories` is exact: its lower-cased
name reads a falsy value (the line is skipped), or it reads an entry whose `kcal` is a
natural number while the amount is `100 * n` for a natural number `n` below `2 ^ 53`. -/
def NaturalLine (toLowerCase : Str → Str) (dict : Dict) (ing : Line) : Prop :=
  (dictGet dict (toLowerCase ing.name)).truthy = false
  ∨ ∃ (e : Ingredient) (k n : ℕ),
      dictGet dict (toLowerCase ing.name) = JSValue.ingredient e
      ∧ e.kcal = JSNum.fin (k : ℚ) ∧ ing.amount = JSNum.fin (100 * (n : ℚ)) ∧ n < 2 ^ 53

/-! ## Dictionary lemmas -/

theorem ownGet_eq_none_iff (d : List (Str × Ingredient)) (k : Str) :
    ownGet d k = none ↔ k ∉ d.map Prod.fst := by
  induction d with
  | nil => simp [ownGet]
  | cons e d ih =>
    obtain ⟨k', v⟩ := e
    rw [List.map_cons, List.mem_cons, ownGet]
    by_cases h : k' = k
    · rw [if_pos h]
      constructor
      · intro h0; cases h0
      · intro h0; exact absurd (Or.inl h.symm) h0
    · rw [if_neg h, ih]
      constructor
      · intro a b
        rcases b with b | b
        · exact h b.symm
        · exact a b
      · intro a b; exact a (Or.inr b)

theorem ownGet_ownSet_same (d : List (Str × Ingredient)) (k : Str) (v : Ingredient) :
    ownGet (ownSet d k v) k = some v := by
  induction d with
  | nil => simp [ownGet, ownSet]
  | cons e d ih =>
    obtain ⟨k', v'⟩ := e
    by_cases h : k' = k
    · simp [ownGet, ownSet, h]
    · simp [ownGet, ownSet, h, ih]

theorem ownGet_ownSet_other (d : List (Str × Ingredient)) (k k' : Str) (v : Ingredient)
    (hk : k' ≠ k) : ownGet (ownSet d k v) k' = ownGet d k' := by
  induction d with
  | nil => simp [ownGet, ownSet, hk.symm]
  | cons e d ih =>
    obtain ⟨k₀, v₀⟩ := e
    by_cases h : k₀ = k
    · subst h
      simp [ownGet, ownSet, hk.symm]
    · by_cases h' : k₀ = k'
      · subst h'
        simp [ownGet, ownSet, h]
      · simp [ownGet, ownSet, h, h', ih]

/-- A read of the key just written finds the written entry, for every key: an own
property, or the prototype returned by the getter `__proto__`. -/
theorem dictGet_dictSet_same (d : Dict) (k : Str) (v : Ingredient) :
    dictGet (dictSet d k v) k = JSValue.ingredient v := by
  unfold dictSet
  cases hown : ownGet d.entries k with
  | some w =>
    simp only [dictGet, ownGet_ownSet_same]
  | none =>
    by_cases hp : k = str "__proto__"
    · subst hp
      have h1 : str "__proto__" ≠ str "kcal" := by decide
      have h2 : str "__proto__" ≠ str "unit" := by decide
      simp only [if_true, dictGet, hown, h1, h2, if_false]
    · simp only [if_neg hp, dictGet, ownGet_ownSet_same]

/-- A write that creates or overwrites an own property leaves the reads of all other keys
as they were. -/
theorem dictGet_dictSet_other (d : Dict) (k k' : Str) (v : Ingredient) (hk : k' ≠ k)
    (hplain : k ≠ str "__proto__" ∨ ownGet d.entries k ≠ none) :
    dictGet (dictSet d k v) k' = dictGet d k' := by
  unfold dictSet
  cases hown : ownGet d.entries k with
  | some w =>
    simp only [dictGet, ownGet_ownSet_other _ _ _ _ hk]
  | none =>
    have hp : k ≠ str "__proto__" := by
      rcases hplain with h | h
      · exact h
      · exact absurd hown h
    simp only [if_neg hp, dictGet, ownGet_ownSet_other _ _ _ _ hk]

/-- A name that is no own key and no member of `Object.prototype` reads `undefined` in a
dictionary whose prototype was not replaced. -/
theorem dictGet_absent (d : Dict) (k : Str) (hown : k ∉ ownKeys d) (hproto : d.proto = none)
    (hbuiltin : k ∉ objectPrototypeKeys) : dictGet d k = JSValue.undefined := by
  unfold dictGet
  rw [(ownGet_eq_none_iff _ _).2 hown, hproto]
  simp only [if_neg hbuiltin]

/-! ## Calorie computation -/

/-- The step of the `reduce` in `calculateCalories`. -/
theorem calculateCalories_append (toLowerCase : Str → Str) (s : App)
    (before after : List Line) :
    calculateCalories toLowerCase s (before ++ after)
      = after.foldl
          (fun total ing =>
            let baseIng := dictGet s.ingredients (toLowerCase ing.name)
            if !baseIng.truthy then total
            else
              let multiplier := jsDiv100 ing.amount
              jsAdd total (jsMul baseIng.kcal multiplier))
          (calculateCalories toLowerCase s before) := by
  unfold calculateCalories
  rw [List.foldl_append]

/-- The empty list of lines gives `0`. -/
theorem calculateCalories_nil (toLowerCase : Str → Str) (s : App) :
    calculateCalories toLowerCase s [] = JSNum.fin 0 := rfl

/-- A line whose lower-cased name reads a falsy value (`undefined` for a name that is
nowhere on the prototype chain) can be inserted anywhere without changing the result. -/
theorem calculateCalories_skip (toLowerCase : Str → Str) (s : App) (before after : List Line)
    (ing : Line) (h : (dictGet s.ingredients (toLowerCase ing.name)).truthy = false) :
    calculateCalories toLowerCase s (before ++ ing :: after)
      = calculateCalories toLowerCase s (before ++ after) := by
  rw [calculateCalories_append, calculateCalories_append, List.foldl_cons]
  simp only [h, Bool.not_false, if_true]

/-- A line whose lower-cased name reads an entry adds `kcal * (amount / 100)` of that entry
to the running total, in double arithmetic. -/
theorem calculateCalories_found (toLowerCase : Str → Str) (s : App) (before : List Line)
    (ing : Line) (e : Ingredient)
    (h : dictGet s.ingredients (toLowerCase ing.name) = JSValue.ingredient e) :
    calculateCalories toLowerCase s (before ++ [ing])
      = jsAdd (calculateCalories toLowerCase s before) (jsMul e.kcal (jsDiv100 ing.amount)) := by
  rw [calculateCalories_append, List.foldl_cons, List.foldl_nil]
  simp only [h, JSValue.truthy, JSValue.kcal, Bool.not_true, Bool.false_eq_true, if_false]

/-- A name that is an own key of the dictionary reads its entry. -/
theorem dictGet_own (d : Dict) (k : Str) (e : Ingredient) (h : ownGet d.entries k = some e) :
    dictGet d k = JSValue.ingredient e := by
  unfold dictGet
  rw [h]

/-- C1 as stated fails on the code in two ways.  The sum is formed in double arithmetic:
in the store `riceApp` the line `(rice, 58, "g")` gives `14.499999999999998`, not
the exact value `25 * (58 / 100) = 29/2`.  And in the store `eggApp` the name
"constructor" is no key of the dictionary, yet `this.ingredients["constructor"]`
reads the inherited function `Object`, which is truthy and has no `kcal`: the line
contributes `NaN`, not `0`, so the list `[egg]` gives `310` and the list
`[egg, constructor]` gives `NaN`. -/
theorem C1_counterexample_rounding_and_inherited_name :
    dictGet riceApp.ingredients (toLowerCaseLatin riceLine.name)
        = JSValue.ingredient { kcal := JSNum.fin 25, unit := str "100g" }
    ∧ calculateCalories toLowerCaseLatin riceApp [riceLine]
        = JSNum.fin (8162774324609023 / 562949953421312)
    ∧ calculateCalories toLowerCaseLatin riceApp [riceLine] ≠ JSNum.fin (25 * (58 / 100))
    ∧ toLowerCaseLatin constructorLine.name ∉ ownKeys eggApp.ingredients
    ∧ dictGet eggApp.ingredients (toLowerCaseLatin constructorLine.name) = JSValue.builtin
    ∧ calculateCalories toLowerCaseLatin eggApp [constructorLine] = JSNum.nan
    ∧ calculateCalories toLowerCaseLatin eggApp [eggLine] = JSNum.fin 310
    ∧ calculateCalories toLowerCaseLatin eggApp [eggLine, constructorLine] = JSNum.nan := by
  refine ⟨by decide, by decide!, by decide!, by decide, by decide, by decide!, by decide!,
    by decide!⟩

/-- C1, amended.  `calculateCalories` is the sum formed from left to right in double
arithmetic, starting from `0`: the empty list gives `0`; a line whose lower-cased name
reads `undefined` in the dictionary adds nothing; a line whose lower-cased name is a
key adds `kcal * (amount / 100)` of the entry, both operations and the addition being
those of doubles.  A line whose name reads `undefined` can be inserted anywhere
without changing the result.  A name reads `undefined` when it is no key and no member
of `Object.prototype`, the prototype of the dictionary being `Object.prototype`. -/
theorem C1_calculateCalories_sum (toLowerCase : Str → Str) (s : App) (lines : List Line) :
    calculateCalories toLowerCase s [] = JSNum.fin 0
    ∧ (∀ ing : Line, dictGet s.ingredients (toLowerCase ing.name) = JSValue.undefined →
        calculateCalories toLowerCase s (lines ++ [ing]) = calculateCalories toLowerCase s lines)
    ∧ (∀ (ing : Line) (e : Ingredient),
        ownGet s.ingredients.entries (toLowerCase ing.name) = some e →
        toLowerCase ing.name ∈ ownKeys s.ingredients
        ∧ calculateCalories toLowerCase s (lines ++ [ing])
            = jsAdd (calculateCalories toLowerCase s lines)
                (jsMul e.kcal (jsDiv100 ing.amount)))
    ∧ (∀ (before after : List Line) (ing : Line),
        dictGet s.ingredients (toLowerCase ing.name) = JSValue.undefined →
        before ++ after = lines →
        calculateCalories toLowerCase s (before ++ ing :: after)
          = calculateCalories toLowerCase s lines)
    ∧ (∀ k : Str, k ∉ ownKeys s.ingredients → s.ingredients.proto = none →
        k ∉ objectPrototypeKeys → dictGet s.ingredients k = JSValue.undefined) := by
  refine ⟨rfl, ?_, ?_, ?_, ?_⟩
  · intro ing h
    have h' : (dictGet s.ingredients (toLowerCase ing.name)).truthy = false := by
      rw [h]; rfl
    have := calculateCalories_skip toLowerCase s lines [] ing h'
    rw [List.append_nil] at this
    exact this
  · intro ing e h
    constructor
    · by_contra hk
      rw [(ownGet_eq_none_iff _ _).2 hk] at h
      cases h
    · exact calculateCalories_found toLowerCase s lines ing e (dictGet_own _ _ _ h)
  · intro before after ing h hl
    subst hl
    have h' : (dictGet s.ingredients (toLowerCase ing.name)).truthy = false := by
      rw [h]; rfl
    exact calculateCalories_skip toLowerCase s before after ing h'
  · intro k hown hproto hbuiltin
    exact dictGet_absent _ _ hown hproto hbuiltin

/-- The amended C1 at the store `eggApp`: the name "Salt" reads `undefined`, and the line
"Salt" put after the egg line adds nothing to `310`. -/
theorem C1_calculateCalories_sum_witness :
    calculateCalories toLowerCaseLatin eggApp ([eggLine] ++ saltLine :: [])
      = calculateCalories toLowerCaseLatin eggApp [eggLine]
    ∧ calculateCalories toLowerCaseLatin eggApp [eggLine] = JSNum.fin 310 :=
  ⟨(C1_calculateCalories_sum toLowerCaseLatin eggApp [eggLine]).2.2.2.1 [eggLine] [] saltLine
      (by decide) rfl,
   by decide!⟩

theorem exactLine_scaleLine (toLowerCase : Str → Str) (dict : Dict) (k : ℚ) (ing : Line) :
    exactLine toLowerCase dict (scaleLine k ing) = k * exactLine toLowerCase dict ing := by
  obtain ⟨name, amount, unit⟩ := ing
  unfold exactLine scaleLine
  cases hget : dictGet dict (toLowerCase name) with
  | ingredient e =>
    cases amount with
    | fin a =>
      cases hk : e.kcal with
      | fin c => simp only [hget, hk]; ring
      | nan => simp only [hget, hk, mul_zero]
      | posInf => simp only [hget, hk, mul_zero]
      | negInf => simp only [hget, hk, mul_zero]
    | nan => simp only [hget, mul_zero]
    | posInf => simp only [hget, mul_zero]
    | negInf => simp only [hget, mul_zero]
  | undefined => cases amount <;> simp only [hget, mul_zero]
  | number x => cases amount <;> simp only [hget, mul_zero]
  | string x => cases amount <;> simp only [hget, mul_zero]
  | builtin => cases amount <;> simp only [hget, mul_zero]

theorem exactCalories_scaleLine (toLowerCase : Str → Str) (s : App) (k : ℚ)
    (lines : List Line) :
    exactCalories toLowerCase s (lines.map (scaleLine k))
      = k * exactCalories toLowerCase s lines := by
  unfold exactCalories
  rw [List.map_map]
  have h : (exactLine toLowerCase s.ingredients ∘ scaleLine k)
      = fun ing => k * exactLine toLowerCase s.ingredients ing := by
    funext ing
    exact exactLine_scaleLine _ _ _ _
  rw [h, List.sum_map_mul_left]

theorem exactCalories_perm (toLowerCase : Str → Str) (s : App) (lines lines' : List Line)
    (hperm : lines'.Perm lines) :
    exactCalories toLowerCase s lines' = exactCalories toLowerCase s lines := by
  unfold exactCalories
  exact (hperm.map _).sum_eq

/-- C2 as stated fails in double arithmetic.  In the store `tenthsApp` the lines `a`, `b`,
`c` (amount `1` each, contributions `0.1`, `0.2`, `0.3`) give
`0.6000000000000001` in this order and `0.6` in the reverse order; and for the line
`a` alone, the amount multiplied by `3` gives `0.3`, which is neither the double
product `3 * 0.1 = 0.30000000000000004` nor three times the rational value of the
double `0.1`. -/
theorem C2_counterexample_double_rounding :
    [lineC, lineB, lineA].Perm [lineA, lineB, lineC]
    ∧ calculateCalories toLowerCaseLatin tenthsApp [lineA, lineB, lineC]
        = JSNum.fin (5404319552844596 / 9007199254740992)
    ∧ calculateCalories toLowerCaseLatin tenthsApp [lineC, lineB, lineA]
        = JSNum.fin (5404319552844595 / 9007199254740992)
    ∧ calculateCalories toLowerCaseLatin tenthsApp [lineC, lineB, lineA]
        ≠ calculateCalories toLowerCaseLatin tenthsApp [lineA, lineB, lineC]
    ∧ calculateCalories toLowerCaseLatin tenthsApp [lineA]
        = JSNum.fin (3602879701896397 / 36028797018963968)
    ∧ calculateCalories toLowerCaseLatin tenthsApp ([lineA].map (scaleLine 3))
        = JSNum.fin (5404319552844595 / 18014398509481984)
    ∧ calculateCalories toLowerCaseLatin tenthsApp ([lineA].map (scaleLine 3))
        ≠ jsMul (JSNum.fin 3) (calculateCalories toLowerCaseLatin tenthsApp [lineA])
    ∧ calculateCalories toLowerCaseLatin tenthsApp ([lineA].map (scaleLine 3))
        ≠ JSNum.fin (3 * (3602879701896397 / 36028797018963968)) := by
  refine ⟨?_, by decide!, by decide!, by decide!, by decide!, by decide!, by decide!,
    by decide!⟩
  exact (List.Perm.swap lineB lineC [lineA]).trans
    ((List.Perm.cons lineB (List.Perm.swap lineA lineC [])).trans
      (List.Perm.swap lineA lineB [lineC]))

/-! ## Exactness of the double arithmetic on small natural numbers -/

theorem binaryLog_spec (fuel n : ℕ) (hpos : 0 < n) (hfuel : n ≤ fuel) :
    2 ^ binaryLog fuel n ≤ n ∧ n < 2 ^ (binaryLog fuel n + 1) := by
  induction fuel generalizing n with
  | zero => omega
  | succ fuel ih =>
    unfold binaryLog
    by_cases h2 : n < 2
    · rw [if_pos h2]
      have : n = 1 := by omega
      subst this
      decide
    · rw [if_neg h2]
      obtain ⟨h1, h3⟩ := ih (n / 2) (by omega) (by omega)
      rw [pow_succ, pow_succ]
      constructor <;> omega

theorem roundHalfEven_one (num : ℕ) : roundHalfEven num 1 = num := by
  unfold roundHalfEven
  simp [Nat.mod_one]

theorem scaleNum_neg (a t : ℕ) : scaleNum a (-(t : ℤ)) = a * 2 ^ t := by
  unfold scaleNum
  by_cases ht : t = 0
  · subst ht
    simp
  · have hneg : ¬ (0 : ℤ) ≤ -(t : ℤ) := by omega
    rw [if_neg hneg]
    simp

theorem scaleDen_neg (d t : ℕ) : scaleDen d (-(t : ℤ)) = d := by
  unfold scaleDen
  by_cases ht : t = 0
  · subst ht
    simp
  · have hneg : ¬ (0 : ℤ) ≤ -(t : ℤ) := by omega
    rw [if_neg hneg]

theorem dyadic_neg (m t : ℕ) : dyadic (m * 2 ^ t) (-(t : ℤ)) = (m : ℚ) := by
  unfold dyadic
  by_cases ht : t = 0
  · subst ht
    simp
  · have hneg : ¬ (0 : ℤ) ≤ -(t : ℤ) := by omega
    rw [if_neg hneg]
    have hnn : (- -(t : ℤ)).toNat = t := by simp
    rw [hnn, Rat.mkRat_eq_div]
    push_cast
    field_simp

/-- A natural number below `2 ^ 53` is a double: rounding leaves it as it is. -/
theorem toDouble_natCast (n : ℕ) (hn : n < 2 ^ 53) : toDouble (n : ℚ) = JSNum.fin n := by
  unfold toDouble
  rw [Rat.num_natCast, Rat.den_natCast, Int.natAbs_ofNat]
  by_cases h0 : n = 0
  · subst h0
    simp
  · have hpos : 0 < n := Nat.pos_of_ne_zero h0
    have hnum : ¬ ((n : ℤ) = 0) := by exact_mod_cast h0
    have hnum' : (0 : ℤ) < (n : ℤ) := by exact_mod_cast hpos
    obtain ⟨hlo, hhi⟩ := binaryLog_spec n n hpos (le_refl _)
    have hL : binaryLog n n ≤ 52 := by
      by_contra hgt
      have : 2 ^ 53 ≤ 2 ^ binaryLog n n := Nat.pow_le_pow_right (by norm_num) (by omega)
      omega
    have hone : binaryLog 1 1 = 0 := by decide
    obtain ⟨t, ht⟩ : ∃ t : ℕ, t + binaryLog n n = 52 := ⟨52 - binaryLog n n, by omega⟩
    have hscaled : 2 ^ 52 ≤ n * 2 ^ t := by
      calc 2 ^ 52 = 2 ^ binaryLog n n * 2 ^ t := by rw [← pow_add, add_comm, ht]
        _ ≤ n * 2 ^ t := Nat.mul_le_mul_right _ hlo
    have hexp : binaryExponent n 1 = -(t : ℤ) := by
      unfold binaryExponent
      rw [hone]
      have he0 : ((binaryLog n n : ℕ) : ℤ) - ((0 : ℕ) : ℤ) - 52 = -(t : ℤ) := by omega
      simp only [he0]
      rw [scaleNum_neg, scaleDen_neg]
      have hnot : ¬ (n * 2 ^ t < 2 ^ 52 * 1) := by omega
      rw [if_neg hnot]
      exact max_eq_left (by omega)
    have hsig : significand n 1 = n * 2 ^ t := by
      unfold significand
      rw [hexp, scaleNum_neg, scaleDen_neg, roundHalfEven_one]
    rw [hexp, hsig, dyadic_neg]
    rw [if_neg hnum]
    have hov : ¬ ((0 : ℤ) ≤ -(t : ℤ) ∧ 2 ^ 1024 ≤ n * 2 ^ t * 2 ^ (-(t : ℤ)).toNat) := by
      rintro ⟨h1, h2⟩
      have ht0 : t = 0 := by omega
      subst ht0
      have h3 : n * 2 ^ 0 * 2 ^ (-((0 : ℕ) : ℤ)).toNat = n := by simp
      rw [h3] at h2
      have h4 := (Nat.pow_lt_pow_iff_right (by decide)).1 (Nat.lt_of_le_of_lt h2 hn)
      exact absurd h4 (by decide)
    rw [if_neg hov, if_pos hnum']

theorem exactLine_of_falsy (toLowerCase : Str → Str) (dict : Dict) (ing : Line)
    (h : (dictGet dict (toLowerCase ing.name)).truthy = false) :
    exactLine toLowerCase dict ing = 0 := by
  unfold exactLine
  cases hget : dictGet dict (toLowerCase ing.name) with
  | ingredient e => rw [hget] at h; simp [JSValue.truthy] at h
  | undefined => rfl
  | number x => rfl
  | string x => rfl
  | builtin => rfl

/-- The contribution of a natural line is a natural number, and the step of the `reduce`
adds it without rounding as long as the sum stays below `2 ^ 53`. -/
theorem naturalLine_step (toLowerCase : Str → Str) (s : App) (ing : Line)
    (h : NaturalLine toLowerCase s.ingredients ing) :
    ∃ c : ℕ, exactLine toLowerCase s.ingredients ing = (c : ℚ)
      ∧ ∀ t : ℕ, t + c < 2 ^ 53 →
          (let baseIng := dictGet s.ingredients (toLowerCase ing.name)
           if !baseIng.truthy then JSNum.fin (t : ℚ)
           else
             let multiplier := jsDiv100 ing.amount
             jsAdd (JSNum.fin (t : ℚ)) (jsMul baseIng.kcal multiplier))
            = JSNum.fin ((t + c : ℕ) : ℚ) := by
  rcases h with h | ⟨e, k, n, hget, hk, ha, hn⟩
  · refine ⟨0, by rw [exactLine_of_falsy _ _ _ h]; simp, ?_⟩
    intro t _
    simp only [h, Bool.not_false, if_true, Nat.add_zero]
  · refine ⟨k * n, ?_, ?_⟩
    · unfold exactLine
      rw [hget, ha]
      simp only [hk]
      push_cast
      ring
    · intro t ht
      have hkn : k * n < 2 ^ 53 := by omega
      have hdiv : (100 * (n : ℚ)) / 100 = (n : ℚ) := by field_simp
      have hmul : (k : ℚ) * (n : ℚ) = ((k * n : ℕ) : ℚ) := by push_cast; ring
      have hadd : (t : ℚ) + ((k * n : ℕ) : ℚ) = ((t + k * n : ℕ) : ℚ) := by push_cast; ring
      simp only [hget, JSValue.truthy, JSValue.kcal, Bool.not_true, Bool.false_eq_true,
        if_false, hk, ha, jsDiv100, hdiv, toDouble_natCast n hn, jsMul, hmul,
        toDouble_natCast (k * n) hkn, jsAdd, hadd, toDouble_natCast (t + k * n) ht]

theorem exactCalories_natural (toLowerCase : Str → Str) (s : App) (lines : List Line)
    (hlines : ∀ ing ∈ lines, NaturalLine toLowerCase s.ingredients ing) :
    ∃ total : ℕ, exactCalories toLowerCase s lines = (total : ℚ) := by
  induction lines with
  | nil => exact ⟨0, by simp [exactCalories]⟩
  | cons ing rest ih =>
    obtain ⟨c, hc, _⟩ := naturalLine_step toLowerCase s ing (hlines ing (List.mem_cons_self _ _))
    obtain ⟨r, hr⟩ := ih (fun x hx => hlines x (List.mem_cons_of_mem _ hx))
    refine ⟨c + r, ?_⟩
    unfold exactCalories at hr ⊢
    rw [List.map_cons, List.sum_cons, hc, hr]
    push_cast
    ring

theorem foldl_exact_of_natural (toLowerCase : Str → Str) (s : App) (lines : List Line)
    (hlines : ∀ ing ∈ lines, NaturalLine toLowerCase s.ingredients ing) (t : ℕ)
    (hbound : (t : ℚ) + exactCalories toLowerCase s lines < 2 ^ 53) :
    lines.foldl
        (fun total ing =>
          let baseIng := dictGet s.ingredients (toLowerCase ing.name)
          if !baseIng.truthy then total
          else
            let multiplier := jsDiv100 ing.amount
            jsAdd total (jsMul baseIng.kcal multiplier))
        (JSNum.fin (t : ℚ))
      = JSNum.fin ((t : ℚ) + exactCalories toLowerCase s lines) := by
  induction lines generalizing t with
  | nil => simp [exactCalories]
  | cons ing rest ih =>
    obtain ⟨c, hc, hstep⟩ :=
      naturalLine_step toLowerCase s ing (hlines ing (List.mem_cons_self _ _))
    have hrest : ∀ x ∈ rest, NaturalLine toLowerCase s.ingredients x :=
      fun x hx => hlines x (List.mem_cons_of_mem _ hx)
    obtain ⟨r, hr⟩ := exactCalories_natural toLowerCase s rest hrest
    have hsum : exactCalories toLowerCase s (ing :: rest)
        = (c : ℚ) + exactCalories toLowerCase s rest := by
      unfold exactCalories
      rw [List.map_cons, List.sum_cons, hc]
    rw [hsum, hr] at hbound
    have hb : t + c + r < 2 ^ 53 := by
      have : ((t + c + r : ℕ) : ℚ) < ((2 ^ 53 : ℕ) : ℚ) := by
        push_cast
        linarith
      exact_mod_cast this
    rw [List.foldl_cons, hstep t (by omega), ih hrest (t + c), hsum]
    · push_cast
      rw [add_assoc]
    · rw [hr]
      have : ((t + c + r : ℕ) : ℚ) < ((2 ^ 53 : ℕ) : ℚ) := by exact_mod_cast hb
      push_cast at this ⊢
      linarith

/-- For natural lines with a total below `2 ^ 53` the double computation is exact. -/
theorem calculateCalories_exact_of_natural (toLowerCase : Str → Str) (s : App)
    (lines : List Line)
    (hlines : ∀ ing ∈ lines, NaturalLine toLowerCase s.ingredients ing)
    (hbound : exactCalories toLowerCase s lines < 2 ^ 53) :
    calculateCalories toLowerCase s lines
      = JSNum.fin (exactCalories toLowerCase s lines) := by
  have h := foldl_exact_of_natural toLowerCase s lines hlines 0 (by simpa using hbound)
  unfold calculateCalories
  simpa using h

/-- C2, amended.  Whenever the double results that are compared carry no rounding error,
that is, each equals the exact rational sum of `kcal * (amount / 100)` over the lines
that are found, `calculateCalories` is independent of the order of the lines and
linear in the amounts: a permutation of the list has the same result, and multiplying
every amount by `k` multiplies the result by `k`.  The computation is exact in
particular when every line is skipped or reads a natural `kcal` with an amount that is
a natural multiple of `100`, and the total is below `2 ^ 53`. -/
theorem C2_calculateCalories_linear_perm_when_exact (toLowerCase : Str → Str) (s : App) :
    (∀ (lines lines' : List Line) (k : ℚ), lines'.Perm lines →
      calculateCalories toLowerCase s lines
        = JSNum.fin (exactCalories toLowerCase s lines) →
      calculateCalories toLowerCase s lines'
        = JSNum.fin (exactCalories toLowerCase s lines') →
      calculateCalories toLowerCase s (lines.map (scaleLine k))
        = JSNum.fin (exactCalories toLowerCase s (lines.map (scaleLine k))) →
      calculateCalories toLowerCase s lines' = calculateCalories toLowerCase s lines
      ∧ ∃ x : ℚ, calculateCalories toLowerCase s lines = JSNum.fin x
          ∧ calculateCalories toLowerCase s (lines.map (scaleLine k)) = JSNum.fin (k * x))
    ∧ (∀ lines : List Line,
        (∀ ing ∈ lines, NaturalLine toLowerCase s.ingredients ing) →
        exactCalories toLowerCase s lines < 2 ^ 53 →
        calculateCalories toLowerCase s lines
          = JSNum.fin (exactCalories toLowerCase s lines)) := by
  constructor
  · intro lines lines' k hperm hexact hexact' hexactk
    constructor
    · rw [hexact', hexact, exactCalories_perm toLowerCase s lines lines' hperm]
    · exact ⟨exactCalories toLowerCase s lines, hexact, by
        rw [hexactk, exactCalories_scaleLine]⟩
  · intro lines hlines hbound
    exact calculateCalories_exact_of_natural toLowerCase s lines hlines hbound

/-- The amended C2 at the store `eggApp`, for the lines `(egg, 200)` and `(egg, 100)`,
their swap and the factor `2`: the results are `465` in both orders and `930` for the
doubled amounts. -/
theorem C2_calculateCalories_linear_perm_when_exact_witness :
    calculateCalories toLowerCaseLatin eggApp [eggLine100, eggLine]
      = calculateCalories toLowerCaseLatin eggApp [eggLine, eggLine100]
    ∧ ∃ x : ℚ, calculateCalories toLowerCaseLatin eggApp [eggLine, eggLine100] = JSNum.fin x
        ∧ calculateCalories toLowerCaseLatin eggApp ([eggLine, eggLine100].map (scaleLine 2))
            = JSNum.fin (2 * x) :=
  (C2_calculateCalories_linear_perm_when_exact toLowerCaseLatin eggApp).1
    [eggLine, eggLine100] [eggLine100, eggLine] 2 (List.Perm.swap eggLine eggLine100 [])
    (by decide!) (by decide!) (by decide!)

/-! ## Saving a recipe -/

theorem truthyStr_eq_false_iff (x : Str) : truthyStr x = false ↔ x = [] := by
  cases x <;> simp [truthyStr]

theorem truthyStr_eq_true_iff (x : Str) : truthyStr x = true ↔ x ≠ [] := by
  cases x <;> simp [truthyStr]

/-- C3. `saveRecipe` fails when the trimmed name is empty and fails when the draft has
no ingredient line; after a failure the whole state, and with it the recipes, both
ingredient maps and the persisted items, is what it was before the call. -/
theorem C3_saveRecipe_failure (toLowerCase : Str → Str) (s : App) (recipeName : Str)
    (now : ℤ) (nowIso : Str) :
    (trim recipeName = [] →
      saveRecipe toLowerCase s recipeName now nowIso = (s, SaveOutcome.emptyName))
    ∧ (trim recipeName ≠ [] → s.currentRecipe.ingredients = [] →
        saveRecipe toLowerCase s recipeName now nowIso = (s, SaveOutcome.noIngredients))
    ∧ (trim recipeName = [] ∨ s.currentRecipe.ingredients = [] →
        ∀ r, (saveRecipe toLowerCase s recipeName now nowIso).2 ≠ SaveOutcome.saved r)
    ∧ ((∀ r, (saveRecipe toLowerCase s recipeName now nowIso).2 ≠ SaveOutcome.saved r) →
        (saveRecipe toLowerCase s recipeName now nowIso).1 = s
        ∧ (saveRecipe toLowerCase s recipeName now nowIso).1.recipes = s.recipes
        ∧ (saveRecipe toLowerCase s recipeName now nowIso).1.ingredients = s.ingredients
        ∧ (saveRecipe toLowerCase s recipeName now nowIso).1.customIngredients
            = s.customIngredients
        ∧ (saveRecipe toLowerCase s recipeName now nowIso).1.storage = s.storage) := by
  have key : (∀ r, (saveRecipe toLowerCase s recipeName now nowIso).2 ≠ SaveOutcome.saved r) →
      (saveRecipe toLowerCase s recipeName now nowIso).1 = s := by
    intro h
    unfold saveRecipe at h ⊢
    by_cases h1 : truthyStr (trim recipeName) = true
    · by_cases h2 : s.currentRecipe.ingredients.length = 0
      · simp [h1, h2]
      · simp [h1, h2] at h
    · simp [h1]
  refine ⟨?_, ?_, ?_, ?_⟩
  · intro h
    simp [saveRecipe, truthyStr, h]
  · intro h1 h2
    have h1' := (truthyStr_eq_true_iff _).2 h1
    simp [saveRecipe, h1', h2]
  · intro h r
    unfold saveRecipe
    by_cases h1 : truthyStr (trim recipeName) = true
    · rcases h with h | h
      · rw [(truthyStr_eq_true_iff _)] at h1
        exact absurd h h1
      · simp [h1, h]
    · simp [h1]
  · intro h
    have e := key h
    rw [e]
    exact ⟨rfl, rfl, rfl, rfl, rfl⟩

/-- The statement C3 at the empty store: a blank name is refused, and so is a named
draft without ingredient lines; the store stays the empty store. -/
theorem C3_saveRecipe_failure_witness :
    saveRecipe toLowerCaseLatin emptyApp (str "  ") 1700000000000
        (str "2023-11-14T22:13:20.000Z") = (emptyApp, SaveOutcome.emptyName)
    ∧ saveRecipe toLowerCaseLatin emptyApp (str "Soup") 1700000000000
        (str "2023-11-14T22:13:20.000Z") = (emptyApp, SaveOutcome.noIngredients) :=
  ⟨(C3_saveRecipe_failure toLowerCaseLatin emptyApp (str "  ") 1700000000000
      (str "2023-11-14T22:13:20.000Z")).1 (by decide),
   (C3_saveRecipe_failure toLowerCaseLatin emptyApp (str "Soup") 1700000000000
      (str "2023-11-14T22:13:20.000Z")).2.1 (by decide) (by decide)⟩

theorem find?_findIndex {α : Type} (p : α → Bool) (arr : List α) (r : α)
    (h : arr.find? p = some r) :
    ∃ index, findIndex p arr = some index ∧ arr[index]? = some r
      ∧ ∀ j, j < index → ∀ x, arr[j]? = some x → p x = false := by
  induction arr with
  | nil => simp at h
  | cons a arr ih =>
    by_cases hp : p a = true
    · rw [List.find?_cons_of_pos _ hp] at h
      refine ⟨0, by simp [findIndex, hp], by simpa using h, ?_⟩
      intro j hj
      omega
    · rw [List.find?_cons_of_neg _ hp] at h
      obtain ⟨i, hi, hget, hfirst⟩ := ih h
      refine ⟨i + 1, by simp [findIndex, hp, hi], by simpa using hget, ?_⟩
      intro j hj x hx
      cases j with
      | zero =>
        simp at hx
        subst hx
        simpa using hp
      | succ j =>
        simp at hx
        exact hfirst j (by omega) x hx

theorem saveRecipe_saved (toLowerCase : Str → Str) (s : App) (recipeName : Str) (now : ℤ)
    (nowIso : Str) (hname : trim recipeName ≠ []) (hlines : s.currentRecipe.ingredients ≠ []) :
    (saveRecipe toLowerCase s recipeName now nowIso).2
      = SaveOutcome.saved (buildRecipe toLowerCase s (trim recipeName) now nowIso) := by
  have h1 := (truthyStr_eq_true_iff _).2 hname
  simp [saveRecipe, h1, hlines]

theorem saveRecipe_saved_inv (toLowerCase : Str → Str) (s : App) (recipeName : Str)
    (now : ℤ) (nowIso : Str) (r : Recipe)
    (h : (saveRecipe toLowerCase s recipeName now nowIso).2 = SaveOutcome.saved r) :
    trim recipeName ≠ [] ∧ s.currentRecipe.ingredients ≠ []
      ∧ r = buildRecipe toLowerCase s (trim recipeName) now nowIso := by
  unfold saveRecipe at h
  by_cases h1 : truthyStr (trim recipeName) = true
  · by_cases h2 : s.currentRecipe.ingredients.length = 0
    · simp [h1, h2] at h
    · simp [h1, h2] at h
      refine ⟨(truthyStr_eq_true_iff _).1 h1, ?_, h.symm⟩
      intro h3
      simp [h3] at h2
  · simp [h1] at h

/-- C4 as stated fails for a recipe whose id is `0`: the recipe `zeroIdRecipe` is in the
list of `zeroIdApp` and is the one opened by `editRecipe`, the save succeeds, and the
saved recipe has the id `1700000000000` returned by `Date.now()`, not the id `0`. -/
theorem C4_counterexample_zero_id :
    zeroIdRecipe ∈ zeroIdApp.recipes
    ∧ (editRecipe zeroIdApp zeroIdRecipe.id).editingRecipe = some zeroIdRecipe
    ∧ ∃ saved,
        (saveRecipe toLowerCaseLatin (editRecipe zeroIdApp zeroIdRecipe.id) (str "Toast")
          1700000000000 (str "2023-11-14T22:13:20.000Z")).2 = SaveOutcome.saved saved
        ∧ saved.id = 1700000000000 ∧ saved.id ≠ zeroIdRecipe.id := by
  refine ⟨by decide, by decide, _, saveRecipe_saved _ _ _ _ _ (by decide) (by decide), ?_, ?_⟩
  · decide
  · decide

/-- C4, amended. Let `editRecipe(id)` open the recipe `r` of the list (the first one
with that id), let `r` have a non-zero id and a non-empty `createdAt`, and let the
draft, whatever it was edited to, be saved successfully.  Then the saved recipe has
the id and the `createdAt` of `r`, it sits at the index `r` had, the list has the
same length, and every other entry is unchanged. -/
theorem C4_edit_then_save_in_place (toLowerCase : Str → Str) (s₀ : App) (id : ℤ)
    (r : Recipe) (draft : Draft) (recipeName : Str) (now : ℤ) (nowIso : Str)
    (hopen : s₀.recipes.find? (fun x => decide (x.id = id)) = some r)
    (hid : r.id ≠ 0) (hcreated : r.createdAt ≠ [])
    (hname : trim recipeName ≠ []) (hlines : draft.ingredients ≠ []) :
    (editRecipe s₀ id).editingRecipe = some r
    ∧ ∃ (saved : Recipe) (index : ℕ),
        (saveRecipe toLowerCase { editRecipe s₀ id with currentRecipe := draft } recipeName
          now nowIso).2 = SaveOutcome.saved saved
        ∧ saved.id = r.id ∧ saved.createdAt = r.createdAt
        ∧ s₀.recipes[index]? = some r
        ∧ (∀ j : ℕ, j < index → ∀ x : Recipe, s₀.recipes[j]? = some x → x.id ≠ r.id)
        ∧ (saveRecipe toLowerCase { editRecipe s₀ id with currentRecipe := draft } recipeName
            now nowIso).1.recipes.length = s₀.recipes.length
        ∧ (saveRecipe toLowerCase { editRecipe s₀ id with currentRecipe := draft } recipeName
            now nowIso).1.recipes[index]? = some saved
        ∧ ∀ j : ℕ, j ≠ index →
            (saveRecipe toLowerCase { editRecipe s₀ id with currentRecipe := draft }
              recipeName now nowIso).1.recipes[j]? = s₀.recipes[j]? := by
  have hrid : r.id = id := by
    have := List.find?_some hopen
    simpa using this
  have hedit : editRecipe s₀ id
      = { s₀ with
          editingRecipe := some r
          currentRecipe :=
            { name := r.name, categories := r.categories, tags := r.tags,
              ingredients := r.ingredients, steps := r.steps } } := by
    simp [editRecipe, hopen]
  obtain ⟨index, hidx, hget, hfirst⟩ := find?_findIndex _ _ _ hopen
  have hlt : index < s₀.recipes.length := by
    by_contra hge
    rw [List.getElem?_eq_none (by omega)] at hget
    cases hget
  refine ⟨by rw [hedit], ?_⟩
  have h1 := (truthyStr_eq_true_iff _).2 hname
  have h2 := (truthyStr_eq_true_iff _).2 hcreated
  refine ⟨buildRecipe toLowerCase { editRecipe s₀ id with currentRecipe := draft }
    (trim recipeName) now nowIso, index, saveRecipe_saved _ _ _ _ _ hname hlines, ?_, ?_, hget,
    ?_, ?_, ?_, ?_⟩
  · simp [buildRecipe, hedit, hid]
  · simp [buildRecipe, hedit, h2]
  · intro j hj x hx
    have := hfirst j hj x hx
    simpa [hrid] using this
  · simp [saveRecipe, hedit, h1, hlines, hrid, hidx, saveToStorage]
  · simp [saveRecipe, hedit, h1, hlines, hrid, hidx, saveToStorage, hlt]
  · intro j hj
    simp [saveRecipe, hedit, h1, hlines, hrid, hidx, saveToStorage, List.getElem?_set, hj.symm]

/-- The amended C4 at the store `twoRecipeApp`: the recipe "Toast", second in the
list, is opened, renamed and saved; it keeps its id and stays second. -/
theorem C4_edit_then_save_in_place_witness :
    (editRecipe twoRecipeApp 1700000000000).editingRecipe = some toastRecipe
    ∧ ∃ (saved : Recipe) (index : ℕ),
        (saveRecipe toLowerCaseLatin { editRecipe twoRecipeApp 1700000000000 with
            currentRecipe := omeletteApp.currentRecipe } (str "Toast 2") 1800000000000
            (str "2027-01-15T08:00:00.000Z")).2 = SaveOutcome.saved saved
        ∧ saved.id = toastRecipe.id ∧ saved.createdAt = toastRecipe.createdAt
        ∧ twoRecipeApp.recipes[index]? = some toastRecipe
        ∧ (∀ j : ℕ, j < index → ∀ x : Recipe, twoRecipeApp.recipes[j]? = some x →
            x.id ≠ toastRecipe.id)
        ∧ (saveRecipe toLowerCaseLatin { editRecipe twoRecipeApp 1700000000000 with
            currentRecipe := omeletteApp.currentRecipe } (str "Toast 2") 1800000000000
            (str "2027-01-15T08:00:00.000Z")).1.recipes.length = twoRecipeApp.recipes.length
        ∧ (saveRecipe toLowerCaseLatin { editRecipe twoRecipeApp 1700000000000 with
            currentRecipe := omeletteApp.currentRecipe } (str "Toast 2") 1800000000000
            (str "2027-01-15T08:00:00.000Z")).1.recipes[index]? = some saved
        ∧ ∀ j : ℕ, j ≠ index →
            (saveRecipe toLowerCaseLatin { editRecipe twoRecipeApp 1700000000000 with
              currentRecipe := omeletteApp.currentRecipe } (str "Toast 2") 1800000000000
              (str "2027-01-15T08:00:00.000Z")).1.recipes[j]? = twoRecipeApp.recipes[j]? :=
  C4_edit_then_save_in_place toLowerCaseLatin twoRecipeApp 1700000000000 toastRecipe
    omeletteApp.currentRecipe (str "Toast 2") 1800000000000 (str "2027-01-15T08:00:00.000Z")
    (by decide) (by decide) (by decide) (by decide) (by decide)

/-! ## The calorie total of a saved recipe -/

/-- Built-in `Math.round` of a finite number is the integer `n` with
`n ≤ x + 1/2 < n + 1`: a nearest integer, the upper one at a tie. -/
theorem jsRound_nearest (x : ℚ) :
    ∃ n : ℤ, jsRound (JSNum.fin x) = JSNum.fin (n : ℚ)
      ∧ (n : ℚ) ≤ x + 1 / 2 ∧ x + 1 / 2 < (n : ℚ) + 1 ∧ |x - (n : ℚ)| ≤ 1 / 2 := by
  have h1 : ((⌊x + 1 / 2⌋ : ℤ) : ℚ) ≤ x + 1 / 2 := Int.floor_le _
  have h2 : x + 1 / 2 < ((⌊x + 1 / 2⌋ : ℤ) : ℚ) + 1 := Int.lt_floor_add_one _
  refine ⟨⌊x + 1 / 2⌋, rfl, h1, h2, ?_⟩
  rw [abs_le]
  constructor <;> linarith

theorem calculateCalories_omelette (toLowerCase : Str → Str)
    (hegg : toLowerCase (str "egg") = str "egg") :
    calculateCalories toLowerCase omeletteApp omeletteApp.currentRecipe.ingredients
      = JSNum.fin 310 := by
  show calculateCalories toLowerCase omeletteApp ([] ++ [eggLine]) = JSNum.fin 310
  have hget : dictGet omeletteApp.ingredients (toLowerCase eggLine.name)
      = JSValue.ingredient { kcal := JSNum.fin 155, unit := str "100g" } := by
    show dictGet omeletteApp.ingredients (toLowerCase (str "egg")) = _
    rw [hegg]
    decide
  rw [calculateCalories_found toLowerCase omeletteApp [] eggLine _ hget, calculateCalories_nil]
  decide!

/-- C5. The recipe committed by a successful `saveRecipe` has `totalCalories` equal to
`Math.round` of `calculateCalories` of the draft lines, which are also its own lines.
The total is rounded once: for a finite sum `x` it is the integer `n` with
`n ≤ x + 1/2 < n + 1`, and `NaN` or an infinity is kept as it is.  For the empty store
with the dictionary `{egg: {kcal: 155, unit: "100g"}}` and the draft "Omelette" with the
single line `(egg, 200, "g")` the saved recipe has `totalCalories = 310`.  In the store
`riceApp` the line `(rice, 58, "g")` alone gives `14.499999999999998`, which rounds to
`14`, and the draft with that line twice is saved with the total `29`, the rounding of
the sum, not `28`, the sum of the rounded lines. -/
theorem C5_saveRecipe_totalCalories (toLowerCase : Str → Str) (s : App) (recipeName : Str)
    (now : ℤ) (nowIso : Str) (r : Recipe)
    (h : (saveRecipe toLowerCase s recipeName now nowIso).2 = SaveOutcome.saved r) :
    r.ingredients = s.currentRecipe.ingredients
    ∧ r.totalCalories = jsRound (calculateCalories toLowerCase s s.currentRecipe.ingredients)
    ∧ r.totalCalories = jsRound (calculateCalories toLowerCase s r.ingredients)
    ∧ (∀ x : ℚ, calculateCalories toLowerCase s s.currentRecipe.ingredients = JSNum.fin x →
        ∃ n : ℤ, r.totalCalories = JSNum.fin (n : ℚ)
          ∧ (n : ℚ) ≤ x + 1 / 2 ∧ x + 1 / 2 < (n : ℚ) + 1 ∧ |x - (n : ℚ)| ≤ 1 / 2)
    ∧ ((∀ x : ℚ, calculateCalories toLowerCase s s.currentRecipe.ingredients ≠ JSNum.fin x) →
        r.totalCalories = calculateCalories toLowerCase s s.currentRecipe.ingredients)
    ∧ (∀ (lower : Str → Str) (now' : ℤ) (nowIso' : Str),
        lower (str "egg") = str "egg" →
        ∃ omelette : Recipe,
          (saveRecipe lower omeletteApp (str "Omelette") now' nowIso').2
            = SaveOutcome.saved omelette
          ∧ (saveRecipe lower omeletteApp (str "Omelette") now' nowIso').1.recipes = [omelette]
          ∧ omelette.name = str "Omelette"
          ∧ omelette.totalCalories = JSNum.fin 310)
    ∧ (calculateCalories toLowerCaseLatin riceApp [riceLine]
          = JSNum.fin (8162774324609023 / 562949953421312)
        ∧ jsRound (JSNum.fin (8162774324609023 / 562949953421312)) = JSNum.fin 14
        ∧ (buildRecipe toLowerCaseLatin riceApp (str "Rice") 1700000000000
            (str "2023-11-14T22:13:20.000Z")).totalCalories = JSNum.fin 29) := by
  obtain ⟨_, _, hr⟩ := saveRecipe_saved_inv toLowerCase s recipeName now nowIso r h
  have hi : r.ingredients = s.currentRecipe.ingredients := by rw [hr]; rfl
  have ht : r.totalCalories
      = jsRound (calculateCalories toLowerCase s s.currentRecipe.ingredients) := by
    rw [hr]; rfl
  refine ⟨hi, ht, by rw [hi]; exact ht, ?_, ?_, ?_, by decide!, by decide!, by decide!⟩
  · intro x hx
    rw [ht, hx]
    exact jsRound_nearest x
  · intro hx
    rw [ht]
    cases hc : calculateCalories toLowerCase s s.currentRecipe.ingredients with
    | fin x => exact absurd hc (hx x)
    | nan => rfl
    | posInf => rfl
    | negInf => rfl
  · intro lower now' nowIso' hegg
    have hname : trim (str "Omelette") ≠ [] := by decide
    have hlines : omeletteApp.currentRecipe.ingredients ≠ [] := by decide
    have h1 := (truthyStr_eq_true_iff _).2 hname
    refine ⟨buildRecipe lower omeletteApp (trim (str "Omelette")) now' nowIso',
      saveRecipe_saved _ _ _ _ _ hname hlines, ?_, ?_, ?_⟩
    · have he : omeletteApp.editingRecipe = none := rfl
      have hrec : omeletteApp.recipes = [] := rfl
      simp [saveRecipe, h1, hlines, he, hrec, saveToStorage]
    · show trim (str "Omelette") = str "Omelette"
      decide
    · show jsRound (calculateCalories lower omeletteApp omeletteApp.currentRecipe.ingredients)
        = JSNum.fin 310
      rw [calculateCalories_omelette lower hegg]
      decide!

/-- The statement C5 at the store `omeletteApp`: the recipe saved at time
`1700000000000` has the calorie total `310`. -/
theorem C5_saveRecipe_totalCalories_witness :
    (buildRecipe toLowerCaseLatin omeletteApp (trim (str "Omelette")) 1700000000000
      (str "2023-11-14T22:13:20.000Z")).totalCalories
      = jsRound (calculateCalories toLowerCaseLatin omeletteApp
          omeletteApp.currentRecipe.ingredients)
    ∧ jsRound (calculateCalories toLowerCaseLatin omeletteApp
          omeletteApp.currentRecipe.ingredients) = JSNum.fin 310 :=
  ⟨(C5_saveRecipe_totalCalories toLowerCaseLatin omeletteApp (str "Omelette") 1700000000000
      (str "2023-11-14T22:13:20.000Z") _
      (saveRecipe_saved toLowerCaseLatin omeletteApp (str "Omelette") 1700000000000
        (str "2023-11-14T22:13:20.000Z") (by decide) (by decide))).2.1,
   by decide!⟩

/-! ## Custom ingredients -/

theorem JSNum.truthy_eq_false_iff (x : JSNum) :
    x.truthy = false ↔ (x = JSNum.nan ∨ x = JSNum.fin 0) := by
  cases x with
  | nan => simp [JSNum.truthy]
  | posInf => simp [JSNum.truthy]
  | negInf => simp [JSNum.truthy]
  | fin q => simp [JSNum.truthy]

theorem saveIngredient_stored (toLowerCase : Str → Str) (s : App) (nameValue : Str)
    (kcal : JSNum) (unit : Str)
    (hname : toLowerCase (trim nameValue) ≠ []) (hk : kcal.truthy = true) :
    saveIngredient toLowerCase s nameValue kcal unit
      = (saveToStorage
          { s with
            ingredients := dictSet s.ingredients (toLowerCase (trim nameValue))
              { kcal := kcal, unit := unit }
            customIngredients := dictSet s.customIngredients (toLowerCase (trim nameValue))
              { kcal := kcal, unit := unit } },
         IngredientOutcome.stored (toLowerCase (trim nameValue))
           { kcal := kcal, unit := unit }) := by
  have h1 := (truthyStr_eq_true_iff _).2 hname
  simp [saveIngredient, h1, hk]

/-- C6 as stated fails for a negative `kcal`: with the name "Lard" and `kcal = -5`, which
is not a positive number, `saveIngredient` does not fail; it stores the entry in both
maps of the empty store. -/
theorem C6_counterexample_negative_kcal :
    toLowerCaseLatin (trim (str "Lard")) ≠ []
    ∧ ¬ (0 : ℚ) < -5
    ∧ (saveIngredient toLowerCaseLatin emptyApp (str "Lard") (JSNum.fin (-5)) (str "100g")).2
        = IngredientOutcome.stored (str "lard") { kcal := JSNum.fin (-5), unit := str "100g" }
    ∧ (saveIngredient toLowerCaseLatin emptyApp (str "Lard") (JSNum.fin (-5))
        (str "100g")).1.ingredients.entries
        = [(str "lard", { kcal := JSNum.fin (-5), unit := str "100g" })]
    ∧ (saveIngredient toLowerCaseLatin emptyApp (str "Lard") (JSNum.fin (-5))
        (str "100g")).1.customIngredients.entries
        = [(str "lard", { kcal := JSNum.fin (-5), unit := str "100g" })] := by
  refine ⟨by decide, by norm_num, by decide, by decide, by decide⟩

/-- C6, amended. `saveIngredient` fails exactly when the trimmed lower-cased name is empty
or `kcal` is `NaN` or `0`; a failure leaves the whole state, and so both ingredient
maps, unchanged.  A zero or not-a-number `kcal` is rejected; a negative `kcal` with a
non-empty name is stored. -/
theorem C6_saveIngredient_failure_iff (toLowerCase : Str → Str) (s : App) (nameValue : Str)
    (kcal : JSNum) (unit : Str) :
    ((saveIngredient toLowerCase s nameValue kcal unit).2 = IngredientOutcome.missingFields
      ↔ (toLowerCase (trim nameValue) = [] ∨ kcal = JSNum.nan ∨ kcal = JSNum.fin 0))
    ∧ ((saveIngredient toLowerCase s nameValue kcal unit).2 = IngredientOutcome.missingFields →
        (saveIngredient toLowerCase s nameValue kcal unit).1 = s
        ∧ (saveIngredient toLowerCase s nameValue kcal unit).1.ingredients = s.ingredients
        ∧ (saveIngredient toLowerCase s nameValue kcal unit).1.customIngredients
            = s.customIngredients)
    ∧ (∀ q : ℚ, q < 0 → toLowerCase (trim nameValue) ≠ [] →
        (saveIngredient toLowerCase s nameValue (JSNum.fin q) unit).2
          = IngredientOutcome.stored (toLowerCase (trim nameValue))
              { kcal := JSNum.fin q, unit := unit }) := by
  have hiff : (saveIngredient toLowerCase s nameValue kcal unit).2
      = IngredientOutcome.missingFields
      ↔ (toLowerCase (trim nameValue) = [] ∨ kcal = JSNum.nan ∨ kcal = JSNum.fin 0) := by
    by_cases hname : toLowerCase (trim nameValue) = []
    · simp [saveIngredient, truthyStr, hname]
    · by_cases hk : kcal.truthy = true
      · rw [saveIngredient_stored toLowerCase s nameValue kcal unit hname hk]
        have hk' : ¬ (kcal = JSNum.nan ∨ kcal = JSNum.fin 0) := by
          rw [← JSNum.truthy_eq_false_iff, hk]
          decide
        simp [hname, hk']
      · have hk0 : kcal.truthy = false := by simpa using hk
        have hk' := (JSNum.truthy_eq_false_iff kcal).1 hk0
        simp [saveIngredient, hk0, hk']
  have hstate : (saveIngredient toLowerCase s nameValue kcal unit).2
      = IngredientOutcome.missingFields →
      (saveIngredient toLowerCase s nameValue kcal unit).1 = s := by
    intro h
    by_cases hname : toLowerCase (trim nameValue) = []
    · simp [saveIngredient, truthyStr, hname]
    · by_cases hk : kcal.truthy = true
      · rw [saveIngredient_stored toLowerCase s nameValue kcal unit hname hk] at h
        cases h
      · have hk0 : kcal.truthy = false := by simpa using hk
        simp [saveIngredient, hk0]
  refine ⟨hiff, ?_, ?_⟩
  · intro h
    rw [hstate h]
    exact ⟨rfl, rfl, rfl⟩
  · intro q hq hname
    have hk : (JSNum.fin q).truthy = true := by
      simp [JSNum.truthy, ne_of_lt hq]
    rw [saveIngredient_stored toLowerCase s nameValue (JSNum.fin q) unit hname hk]

/-- The amended C6 at the store `eggApp`: a `kcal` of `0` is refused and the store is
left as it was. -/
theorem C6_saveIngredient_failure_iff_witness :
    (saveIngredient toLowerCaseLatin eggApp (str "Lard") (JSNum.fin 0) (str "100g")).1 = eggApp
    ∧ (saveIngredient toLowerCaseLatin eggApp (str "Lard") (JSNum.fin 0)
        (str "100g")).1.ingredients = eggApp.ingredients
    ∧ (saveIngredient toLowerCaseLatin eggApp (str "Lard") (JSNum.fin 0)
        (str "100g")).1.customIngredients = eggApp.customIngredients :=
  (C6_saveIngredient_failure_iff toLowerCaseLatin eggApp (str "Lard") (JSNum.fin 0)
    (str "100g")).2.1 (by decide)

/-- For a key other than `__proto__` (or when `__proto__` is an own key of both maps),
`saveIngredient` with a non-empty key and a truthy `kcal` makes both maps read the new
entry at the trimmed lower-cased name, leaves the reads of every other key as they
were, and a line with any name of the same lower-case form is charged by the new
entry; a second `saveIngredient` on the same key overwrites the entry. -/
theorem saveIngredient_stores_plain_key (toLowerCase : Str → Str) (s : App) (nameValue : Str)
    (kcal : JSNum) (unit : Str)
    (hname : toLowerCase (trim nameValue) ≠ []) (hk : kcal.truthy = true)
    (hplain : toLowerCase (trim nameValue) ≠ str "__proto__"
      ∨ (ownGet s.ingredients.entries (toLowerCase (trim nameValue)) ≠ none
          ∧ ownGet s.customIngredients.entries (toLowerCase (trim nameValue)) ≠ none)) :
    (saveIngredient toLowerCase s nameValue kcal unit).2
      = IngredientOutcome.stored (toLowerCase (trim nameValue)) { kcal := kcal, unit := unit }
    ∧ dictGet (saveIngredient toLowerCase s nameValue kcal unit).1.ingredients
        (toLowerCase (trim nameValue)) = JSValue.ingredient { kcal := kcal, unit := unit }
    ∧ dictGet (saveIngredient toLowerCase s nameValue kcal unit).1.customIngredients
        (toLowerCase (trim nameValue)) = JSValue.ingredient { kcal := kcal, unit := unit }
    ∧ (∀ other : Str, other ≠ toLowerCase (trim nameValue) →
        dictGet (saveIngredient toLowerCase s nameValue kcal unit).1.ingredients other
          = dictGet s.ingredients other
        ∧ dictGet (saveIngredient toLowerCase s nameValue kcal unit).1.customIngredients other
            = dictGet s.customIngredients other)
    ∧ (∀ variant : Str, toLowerCase variant = toLowerCase (trim nameValue) →
        ∀ (amount : JSNum) (lineUnit : Str),
          calculateCalories toLowerCase (saveIngredient toLowerCase s nameValue kcal unit).1
            [{ name := variant, amount := amount, unit := lineUnit }]
            = jsAdd (JSNum.fin 0) (jsMul kcal (jsDiv100 amount)))
    ∧ (∀ (again : Str) (kcal' : JSNum) (unit' : Str),
        toLowerCase (trim again) = toLowerCase (trim nameValue) → kcal'.truthy = true →
        dictGet (saveIngredient toLowerCase
            (saveIngredient toLowerCase s nameValue kcal unit).1 again kcal' unit').1.ingredients
            (toLowerCase (trim nameValue)) = JSValue.ingredient { kcal := kcal', unit := unit' }
        ∧ dictGet (saveIngredient toLowerCase
            (saveIngredient toLowerCase s nameValue kcal unit).1 again kcal'
            unit').1.customIngredients (toLowerCase (trim nameValue))
            = JSValue.ingredient { kcal := kcal', unit := unit' }) := by
  have hsave := saveIngredient_stored toLowerCase s nameValue kcal unit hname hk
  have hget : dictGet (saveIngredient toLowerCase s nameValue kcal unit).1.ingredients
      (toLowerCase (trim nameValue)) = JSValue.ingredient { kcal := kcal, unit := unit } := by
    rw [hsave]; exact dictGet_dictSet_same _ _ _
  refine ⟨by rw [hsave], hget, ?_, ?_, ?_, ?_⟩
  · rw [hsave]; exact dictGet_dictSet_same _ _ _
  · intro other hother
    rw [hsave]
    constructor
    · exact dictGet_dictSet_other _ _ _ _ hother (hplain.imp id (fun h => h.1))
    · exact dictGet_dictSet_other _ _ _ _ hother (hplain.imp id (fun h => h.2))
  · intro variant hvariant amount lineUnit
    have hget' : dictGet (saveIngredient toLowerCase s nameValue kcal unit).1.ingredients
        (toLowerCase ({ name := variant, amount := amount, unit := lineUnit } : Line).name)
        = JSValue.ingredient { kcal := kcal, unit := unit } := by
      show dictGet _ (toLowerCase variant) = _
      rw [hvariant]
      exact hget
    have h := calculateCalories_found toLowerCase
      (saveIngredient toLowerCase s nameValue kcal unit).1 []
      { name := variant, amount := amount, unit := lineUnit } _ hget'
    rw [List.nil_append, calculateCalories_nil] at h
    exact h
  · intro again kcal' unit' hagain hk'
    have hkey' : toLowerCase (trim again) ≠ [] := by rw [hagain]; exact hname
    rw [saveIngredient_stored toLowerCase _ again kcal' unit' hkey' hk', hagain]
    exact ⟨dictGet_dictSet_same _ _ _, dictGet_dictSet_same _ _ _⟩

/-- The scenario of C7 on ordinary keys: after `("Egg", 155, "100g")` the names "egg" and
"EGG" read the entry with `kcal = 155`, and after `("egg", 160, "100g")` the key "egg"
reads `kcal = 160` in both maps, which each hold the one key "egg". -/
theorem saveIngredient_egg_scenario :
    dictGet (saveIngredient toLowerCaseLatin emptyApp (str "Egg") (JSNum.fin 155)
        (str "100g")).1.ingredients (toLowerCaseLatin (str "egg"))
      = JSValue.ingredient { kcal := JSNum.fin 155, unit := str "100g" }
    ∧ dictGet (saveIngredient toLowerCaseLatin emptyApp (str "Egg") (JSNum.fin 155)
        (str "100g")).1.ingredients (toLowerCaseLatin (str "EGG"))
      = JSValue.ingredient { kcal := JSNum.fin 155, unit := str "100g" }
    ∧ (saveIngredient toLowerCaseLatin
        (saveIngredient toLowerCaseLatin emptyApp (str "Egg") (JSNum.fin 155) (str "100g")).1
        (str "egg") (JSNum.fin 160) (str "100g")).1.ingredients.entries
      = [(str "egg", { kcal := JSNum.fin 160, unit := str "100g" })]
    ∧ (saveIngredient toLowerCaseLatin
        (saveIngredient toLowerCaseLatin emptyApp (str "Egg") (JSNum.fin 155) (str "100g")).1
        (str "egg") (JSNum.fin 160) (str "100g")).1.customIngredients.entries
      = [(str "egg", { kcal := JSNum.fin 160, unit := str "100g" })] := by
  refine ⟨by decide, by decide, by decide, by decide⟩

/-- C7 fails on the code for the name `__proto__`.  In the store `eggApp`,
`saveIngredient("__proto__", 50, "100g")` does not fail, but both assignments reach the
setter of `Object.prototype`: no key is added to either map (the keys of `ingredients`
stay `["egg"]`, `customIngredients` stays without keys and is persisted as `{}`), and
the other keys "kcal" and "unit", which read `undefined` before, now read `50` and
"100g" from the installed prototype; a line named "kcal" then turns the total, `0`
before, into `NaN`. -/
theorem C7_proto_name_adds_no_key :
    trim (str "__proto__") ≠ []
    ∧ (saveIngredient toLowerCaseLatin eggApp (str "__proto__") (JSNum.fin 50) (str "100g")).2
        = IngredientOutcome.stored (str "__proto__")
            { kcal := JSNum.fin 50, unit := str "100g" }
    ∧ ownKeys (saveIngredient toLowerCaseLatin eggApp (str "__proto__") (JSNum.fin 50)
        (str "100g")).1.ingredients = [str "egg"]
    ∧ ownKeys (saveIngredient toLowerCaseLatin eggApp (str "__proto__") (JSNum.fin 50)
        (str "100g")).1.customIngredients = []
    ∧ (saveIngredient toLowerCaseLatin eggApp (str "__proto__") (JSNum.fin 50)
        (str "100g")).1.storage.customIngredients = some []
    ∧ dictGet eggApp.ingredients (str "kcal") = JSValue.undefined
    ∧ dictGet (saveIngredient toLowerCaseLatin eggApp (str "__proto__") (JSNum.fin 50)
        (str "100g")).1.ingredients (str "kcal") = JSValue.number (JSNum.fin 50)
    ∧ dictGet eggApp.ingredients (str "unit") = JSValue.undefined
    ∧ dictGet (saveIngredient toLowerCaseLatin eggApp (str "__proto__") (JSNum.fin 50)
        (str "100g")).1.ingredients (str "unit") = JSValue.string (str "100g")
    ∧ calculateCalories toLowerCaseLatin eggApp
        [{ name := str "kcal", amount := JSNum.fin 100, unit := str "g" }] = JSNum.fin 0
    ∧ calculateCalories toLowerCaseLatin
        (saveIngredient toLowerCaseLatin eggApp (str "__proto__") (JSNum.fin 50)
          (str "100g")).1
        [{ name := str "kcal", amount := JSNum.fin 100, unit := str "g" }] = JSNum.nan := by
  refine ⟨by decide, by decide, by decide, by decide, by decide, by decide, by decide,
    by decide, by decide, by decide!, by decide!⟩

/-! ## Filtering -/

theorem strIncludes_iff (x t : Str) : strIncludes x t = true ↔ t <:+: x := by
  unfold strIncludes
  rw [List.any_eq_true, List.infix_iff_prefix_suffix]
  constructor
  · rintro ⟨u, hu, hp⟩
    exact ⟨u, List.isPrefixOf_iff_prefix.1 hp, (List.mem_tails _ _).1 hu⟩
  · rintro ⟨u, hp, hu⟩
    exact ⟨u, (List.mem_tails _ _).2 hu, List.isPrefixOf_iff_prefix.2 hp⟩

theorem matchesFilter_iff (toLowerCase : Str → Str)
    (searchInput categoryFilter tagFilter : Str) (recipe : Recipe) :
    matchesFilter toLowerCase (toLowerCase searchInput) categoryFilter tagFilter recipe = true
      ↔ matchesSpec toLowerCase searchInput categoryFilter tagFilter recipe := by
  unfold matchesFilter matchesSpec
  simp only [Bool.and_eq_true, Bool.or_eq_true, strIncludes_iff, List.any_eq_true,
    decide_eq_true_eq, List.contains, List.elem_iff, and_assoc]

/-- C8. `filterRecipes` leaves the store as it is and yields exactly the recipes of the
list, in store order, for which the lower-cased search term occurs in the
lower-cased name or in the lower-cased name of some ingredient line, and the
category is "all" or among the categories of the recipe, and the tag is "all" or
among its tags; search terms with the same lower-case form give the same result; with
the empty search term and both filters "all" the result is the whole list.  In the
store `threeRecipeApp` the search "żUR" finds the recipe "Żurek" and the search
"śmietana" finds it through its line "Śmietana". -/
theorem C8_filterRecipes_exact (toLowerCase : Str → Str) (s : App)
    (searchInput categoryFilter tagFilter : Str) :
    (filterRecipes toLowerCase s searchInput categoryFilter tagFilter).1 = s
    ∧ (filterRecipes toLowerCase s searchInput categoryFilter tagFilter).2
        = s.recipes.filter
            (fun recipe =>
              decide (matchesSpec toLowerCase searchInput categoryFilter tagFilter recipe))
    ∧ ((filterRecipes toLowerCase s searchInput categoryFilter tagFilter).2).Sublist s.recipes
    ∧ (∀ recipe : Recipe,
        recipe ∈ (filterRecipes toLowerCase s searchInput categoryFilter tagFilter).2
        ↔ recipe ∈ s.recipes
          ∧ matchesSpec toLowerCase searchInput categoryFilter tagFilter recipe)
    ∧ (∀ variant : Str, toLowerCase variant = toLowerCase searchInput →
        filterRecipes toLowerCase s variant categoryFilter tagFilter
          = filterRecipes toLowerCase s searchInput categoryFilter tagFilter)
    ∧ (toLowerCase [] = [] → (filterRecipes toLowerCase s [] (str "all") (str "all")).2
        = s.recipes)
    ∧ ((filterRecipes toLowerCaseLatin threeRecipeApp (str "żUR") (str "all") (str "all")).2
          = [zurekRecipe]
        ∧ (filterRecipes toLowerCaseLatin threeRecipeApp (str "śmietana") (str "all")
            (str "all")).2 = [zurekRecipe]
        ∧ (filterRecipes toLowerCaseLatin threeRecipeApp (str "") (str "Dinner")
            (str "all")).2 = [soupRecipe]) := by
  have hfun : matchesFilter toLowerCase (toLowerCase searchInput) categoryFilter tagFilter
      = fun recipe =>
          decide (matchesSpec toLowerCase searchInput categoryFilter tagFilter recipe) := by
    funext recipe
    rw [Bool.eq_iff_iff, matchesFilter_iff, decide_eq_true_eq]
  have hres : (filterRecipes toLowerCase s searchInput categoryFilter tagFilter).2
      = s.recipes.filter
          (fun recipe =>
            decide (matchesSpec toLowerCase searchInput categoryFilter tagFilter recipe)) := by
    show s.recipes.filter
      (matchesFilter toLowerCase (toLowerCase searchInput) categoryFilter tagFilter) = _
    rw [hfun]
  refine ⟨rfl, hres, ?_, ?_, ?_, ?_, by decide, by decide, by decide⟩
  · rw [hres]; exact List.filter_sublist _
  · intro recipe
    rw [hres, List.mem_filter, decide_eq_true_eq]
  · intro variant hvariant
    unfold filterRecipes
    simp only [hvariant]
  · intro hnil
    show s.recipes.filter (matchesFilter toLowerCase (toLowerCase []) (str "all") (str "all"))
      = s.recipes
    rw [List.filter_eq_self]
    intro recipe _
    have h := matchesFilter_iff toLowerCase [] (str "all") (str "all") recipe
    rw [h]
    refine ⟨Or.inl ?_, Or.inl rfl, Or.inl rfl⟩
    rw [hnil]
    exact List.nil_infix

/-- The statement C8 for the lower-casing `toLowerCaseLatin`, which maps the empty string
to itself: the empty search with both filters "all" returns the whole list. -/
theorem C8_filterRecipes_exact_witness :
    (filterRecipes toLowerCaseLatin threeRecipeApp [] (str "all") (str "all")).2
      = threeRecipeApp.recipes :=
  (C8_filterRecipes_exact toLowerCaseLatin threeRecipeApp [] (str "all") (str "all")).2.2.2.2.2.1
    (by decide)

/-! ## Deleting a recipe -/

/-- C9. A confirmed `deleteRecipe(id)` leaves a list with no recipe of that id, in which
every other recipe is kept, as often as before and in the original order; when no
recipe has that id the list is unchanged; the ingredient maps are unchanged in every
case, and an unconfirmed call changes nothing. -/
theorem C9_deleteRecipe (s : App) (id : ℤ) :
    (∀ recipe ∈ (deleteRecipe s true id).recipes, recipe.id ≠ id)
    ∧ ((deleteRecipe s true id).recipes).Sublist s.recipes
    ∧ (∀ recipe : Recipe, recipe.id ≠ id →
        (recipe ∈ (deleteRecipe s true id).recipes ↔ recipe ∈ s.recipes)
        ∧ (deleteRecipe s true id).recipes.count recipe = s.recipes.count recipe)
    ∧ (deleteRecipe s true id).recipes
        = s.recipes.filter (fun recipe => decide (recipe.id ≠ id))
    ∧ ((∀ recipe ∈ s.recipes, recipe.id ≠ id) → (deleteRecipe s true id).recipes = s.recipes)
    ∧ (∀ confirmed : Bool,
        (deleteRecipe s confirmed id).ingredients = s.ingredients
        ∧ (deleteRecipe s confirmed id).customIngredients = s.customIngredients)
    ∧ deleteRecipe s false id = s := by
  have hres : (deleteRecipe s true id).recipes
      = s.recipes.filter (fun recipe => decide (recipe.id ≠ id)) := rfl
  refine ⟨?_, ?_, ?_, hres, ?_, ?_, rfl⟩
  · intro recipe h
    rw [hres, List.mem_filter, decide_eq_true_eq] at h
    exact h.2
  · rw [hres]; exact List.filter_sublist _
  · intro recipe h
    rw [hres]
    constructor
    · rw [List.mem_filter, decide_eq_true_eq]
      exact ⟨fun a => a.1, fun a => ⟨a, h⟩⟩
    · exact List.count_filter (by simpa using h)
  · intro h
    rw [hres, List.filter_eq_self]
    intro recipe hmem
    simpa using h recipe hmem
  · intro confirmed
    cases confirmed
    · exact ⟨rfl, rfl⟩
    · exact ⟨rfl, rfl⟩

/-- The statement C9 at the store `twoRecipeApp`: no recipe has the id `5`, and the
confirmed deletion of that id leaves the list as it was. -/
theorem C9_deleteRecipe_witness :
    (deleteRecipe twoRecipeApp true 5).recipes = twoRecipeApp.recipes :=
  (C9_deleteRecipe twoRecipeApp 5).2.2.2.2.1 (by decide)

/-! ## Categories and tags of the draft -/

theorem KeepsOrder.nodup {before after : List Str} (h : KeepsOrder before after)
    (hb : before.Nodup) : after.Nodup := by
  rcases h with h | ⟨value, hv, rfl⟩
  · exact hb.sublist h
  · rw [List.nodup_append]
    refine ⟨hb, List.nodup_singleton _, ?_⟩
    intro a ha hb'
    rw [List.mem_singleton] at hb'
    exact hv (hb' ▸ ha)

theorem spliceOne_sublist {α : Type} (arr : List α) (index : ℤ) :
    (spliceOne arr index).Sublist arr :=
  List.eraseIdx_sublist _ _

theorem addCategory_step (s : App) (input : Str) :
    KeepsOrder s.currentRecipe.categories (addCategory s input).currentRecipe.categories
    ∧ (addCategory s input).currentRecipe.tags = s.currentRecipe.tags
    ∧ (addCategory s input).editingRecipe = s.editingRecipe
    ∧ (addCategory s input).recipes = s.recipes := by
  unfold addCategory
  dsimp only
  by_cases h : (truthyStr (trim input) && !s.currentRecipe.categories.contains (trim input)) = true
  · rw [if_pos h]
    refine ⟨Or.inr ⟨trim input, ?_, rfl⟩, rfl, rfl, rfl⟩
    simp only [Bool.and_eq_true, Bool.not_eq_true', List.contains, ← Bool.not_eq_true,
      List.elem_iff] at h
    exact h.2
  · rw [if_neg h]
    exact ⟨Or.inl (List.Sublist.refl _), rfl, rfl, rfl⟩

theorem addTag_step (s : App) (input : Str) :
    KeepsOrder s.currentRecipe.tags (addTag s input).currentRecipe.tags
    ∧ (addTag s input).currentRecipe.categories = s.currentRecipe.categories
    ∧ (addTag s input).editingRecipe = s.editingRecipe
    ∧ (addTag s input).recipes = s.recipes := by
  unfold addTag
  dsimp only
  by_cases h : (truthyStr (trim input) && !s.currentRecipe.tags.contains (trim input)) = true
  · rw [if_pos h]
    refine ⟨Or.inr ⟨trim input, ?_, rfl⟩, rfl, rfl, rfl⟩
    simp only [Bool.and_eq_true, Bool.not_eq_true', List.contains, ← Bool.not_eq_true,
      List.elem_iff] at h
    exact h.2
  · rw [if_neg h]
    exact ⟨Or.inl (List.Sublist.refl _), rfl, rfl, rfl⟩

theorem addIngredient_step (s : App) (name : Str) (amount : Option ℚ) (unit : Str) :
    (addIngredient s name amount unit).currentRecipe.categories = s.currentRecipe.categories
    ∧ (addIngredient s name amount unit).currentRecipe.tags = s.currentRecipe.tags
    ∧ (addIngredient s name amount unit).editingRecipe = s.editingRecipe
    ∧ (addIngredient s name amount unit).recipes = s.recipes := by
  cases amount with
  | none => exact ⟨rfl, rfl, rfl, rfl⟩
  | some parsed =>
    show (if truthyStr name then _ else s).currentRecipe.categories = _
      ∧ (if truthyStr name then _ else s).currentRecipe.tags = _
      ∧ (if truthyStr name then _ else s).editingRecipe = _
      ∧ (if truthyStr name then _ else s).recipes = _
    by_cases h : truthyStr name = true
    · rw [if_pos h]
      exact ⟨rfl, rfl, rfl, rfl⟩
    · rw [if_neg h]
      exact ⟨rfl, rfl, rfl, rfl⟩

theorem applyEdit_step (s : App) (edit : DraftEdit) :
    KeepsOrder s.currentRecipe.categories (applyEdit s edit).currentRecipe.categories
    ∧ KeepsOrder s.currentRecipe.tags (applyEdit s edit).currentRecipe.tags
    ∧ (applyEdit s edit).editingRecipe = s.editingRecipe
    ∧ (applyEdit s edit).recipes = s.recipes := by
  cases edit with
  | addCategory input =>
    obtain ⟨h1, h2, h3, h4⟩ := addCategory_step s input
    exact ⟨h1, Or.inl (by rw [show (applyEdit s (DraftEdit.addCategory input)) = addCategory s input
      from rfl, h2]), h3, h4⟩
  | removeCategory index =>
    exact ⟨Or.inl (spliceOne_sublist _ _), Or.inl (List.Sublist.refl _), rfl, rfl⟩
  | addTag input =>
    obtain ⟨h1, h2, h3, h4⟩ := addTag_step s input
    exact ⟨Or.inl (by rw [show (applyEdit s (DraftEdit.addTag input)) = addTag s input
      from rfl, h2]), h1, h3, h4⟩
  | removeTag index =>
    exact ⟨Or.inl (List.Sublist.refl _), Or.inl (spliceOne_sublist _ _), rfl, rfl⟩
  | addIngredient name amount unit =>
    obtain ⟨h1, h2, h3, h4⟩ := addIngredient_step s name amount unit
    refine ⟨Or.inl ?_, Or.inl ?_, h3, h4⟩
    · rw [show (applyEdit s (DraftEdit.addIngredient name amount unit))
        = addIngredient s name amount unit from rfl, h1]
    · rw [show (applyEdit s (DraftEdit.addIngredient name amount unit))
        = addIngredient s name amount unit from rfl, h2]
  | removeIngredient index =>
    exact ⟨Or.inl (List.Sublist.refl _), Or.inl (List.Sublist.refl _), rfl, rfl⟩

theorem applyEdits_invariant (s : App) (edits : List DraftEdit)
    (hc : s.currentRecipe.categories.Nodup) (ht : s.currentRecipe.tags.Nodup) :
    (applyEdits s edits).currentRecipe.categories.Nodup
    ∧ (applyEdits s edits).currentRecipe.tags.Nodup
    ∧ (applyEdits s edits).editingRecipe = s.editingRecipe
    ∧ (applyEdits s edits).recipes = s.recipes := by
  induction edits generalizing s with
  | nil => exact ⟨hc, ht, rfl, rfl⟩
  | cons edit edits ih =>
    obtain ⟨h1, h2, h3, h4⟩ := applyEdit_step s edit
    obtain ⟨i1, i2, i3, i4⟩ := ih (applyEdit s edit) (h1.nodup hc) (h2.nodup ht)
    exact ⟨i1, i2, i3.trans h3, i4.trans h4⟩

/-- C10. Starting from the empty draft made by `showAddRecipe`, after every sequence of
`addCategory`, `removeCategory`, `addTag` and `removeTag` (and of `addIngredient` and
`removeIngredient`) the categories and the tags of the draft have no duplicate entry;
each further edit keeps the insertion order, as it only removes entries or puts one
new entry last; and a recipe committed by `saveRecipe` from such a draft carries
these duplicate-free lists and is appended to the recipe list. -/
theorem C10_draft_categories_tags_nodup (toLowerCase : Str → Str) (s₀ : App)
    (edits : List DraftEdit) :
    (applyEdits (showAddRecipe s₀) edits).currentRecipe.categories.Nodup
    ∧ (applyEdits (showAddRecipe s₀) edits).currentRecipe.tags.Nodup
    ∧ (∀ edit : DraftEdit,
        KeepsOrder (applyEdits (showAddRecipe s₀) edits).currentRecipe.categories
          (applyEdit (applyEdits (showAddRecipe s₀) edits) edit).currentRecipe.categories
        ∧ KeepsOrder (applyEdits (showAddRecipe s₀) edits).currentRecipe.tags
          (applyEdit (applyEdits (showAddRecipe s₀) edits) edit).currentRecipe.tags)
    ∧ (∀ (recipeName : Str) (now : ℤ) (nowIso : Str) (recipe : Recipe),
        (saveRecipe toLowerCase (applyEdits (showAddRecipe s₀) edits) recipeName now nowIso).2
          = SaveOutcome.saved recipe →
        recipe.categories = (applyEdits (showAddRecipe s₀) edits).currentRecipe.categories
        ∧ recipe.tags = (applyEdits (showAddRecipe s₀) edits).currentRecipe.tags
        ∧ recipe.categories.Nodup ∧ recipe.tags.Nodup
        ∧ (saveRecipe toLowerCase (applyEdits (showAddRecipe s₀) edits) recipeName now
            nowIso).1.recipes = s₀.recipes ++ [recipe]) := by
  obtain ⟨hc, ht, he, hr⟩ := applyEdits_invariant (showAddRecipe s₀) edits
    List.nodup_nil List.nodup_nil
  refine ⟨hc, ht, ?_, ?_⟩
  · intro edit
    obtain ⟨h1, h2, _, _⟩ := applyEdit_step (applyEdits (showAddRecipe s₀) edits) edit
    exact ⟨h1, h2⟩
  · intro recipeName now nowIso recipe h
    obtain ⟨hname, hlines, hrec⟩ := saveRecipe_saved_inv _ _ _ _ _ _ h
    have h1 := (truthyStr_eq_true_iff _).2 hname
    have he' : (applyEdits (showAddRecipe s₀) edits).editingRecipe = none := he
    have hr' : (applyEdits (showAddRecipe s₀) edits).recipes = s₀.recipes := hr
    have hcat : recipe.categories
        = (applyEdits (showAddRecipe s₀) edits).currentRecipe.categories := by rw [hrec]; rfl
    have htag : recipe.tags = (applyEdits (showAddRecipe s₀) edits).currentRecipe.tags := by
      rw [hrec]; rfl
    refine ⟨hcat, htag, hcat ▸ hc, htag ▸ ht, ?_⟩
    simp [saveRecipe, h1, hlines, he', hr', saveToStorage, hrec]

/-- The statement C10 at the empty store and the edits `dinnerEdits`: the saved recipe
has the categories "Dinner" and "dinner" (the second " Dinner " is refused) and the
tag "quick", without duplicates. -/
theorem C10_draft_categories_tags_nodup_witness :
    (buildRecipe toLowerCaseLatin (applyEdits (showAddRecipe emptyApp) dinnerEdits)
      (trim (str "Dinner egg")) 1700000000000 (str "2023-11-14T22:13:20.000Z")).categories
      = (applyEdits (showAddRecipe emptyApp) dinnerEdits).currentRecipe.categories
    ∧ (applyEdits (showAddRecipe emptyApp) dinnerEdits).currentRecipe.categories
      = [str "Dinner", str "dinner"]
    ∧ (buildRecipe toLowerCaseLatin (applyEdits (showAddRecipe emptyApp) dinnerEdits)
      (trim (str "Dinner egg")) 1700000000000
      (str "2023-11-14T22:13:20.000Z")).categories.Nodup :=
  ⟨((C10_draft_categories_tags_nodup toLowerCaseLatin emptyApp dinnerEdits).2.2.2
      (str "Dinner egg") 1700000000000 (str "2023-11-14T22:13:20.000Z") _
      (saveRecipe_saved _ _ _ _ _ (by decide) (by decide))).1,
   by decide,
   ((C10_draft_categories_tags_nodup toLowerCaseLatin emptyApp dinnerEdits).2.2.2
      (str "Dinner egg") 1700000000000 (str "2023-11-14T22:13:20.000Z") _
      (saveRecipe_saved _ _ _ _ _ (by decide) (by decide))).2.2.1⟩

/-! ## Step slots of the draft -/

theorem assignAt_length_le (arr : List Str) (index : ℤ) (value : Str) :
    arr.length ≤ (assignAt arr index value).length := by
  unfold assignAt
  split_ifs
  · exact le_refl _
  · rw [List.length_set]
  · rw [List.length_append, List.length_append]
    omega

theorem applyStepEdit_keeps_slot (s : App) (edit : StepEdit)
    (h : s.currentRecipe.steps ≠ []) : (applyStepEdit s edit).currentRecipe.steps ≠ [] := by
  have hpos : 0 < s.currentRecipe.steps.length := List.length_pos.2 h
  cases edit with
  | addStep =>
    show s.currentRecipe.steps ++ [[]] ≠ []
    simp
  | removeStep index =>
    show (removeStep s index).currentRecipe.steps ≠ []
    unfold removeStep
    by_cases hlen : s.currentRecipe.steps.length > 1
    · rw [if_pos hlen]
      show spliceOne s.currentRecipe.steps index ≠ []
      apply List.ne_nil_of_length_pos
      have := List.le_length_eraseIdx s.currentRecipe.steps
        (if index < 0 then (s.currentRecipe.steps.length + index).toNat
          else min index.toNat s.currentRecipe.steps.length)
      show 0 < (s.currentRecipe.steps.eraseIdx
        (if index < 0 then (s.currentRecipe.steps.length + index).toNat
          else min index.toNat s.currentRecipe.steps.length)).length
      omega
    · rw [if_neg hlen]
      exact h
  | updateStep index value =>
    show assignAt s.currentRecipe.steps index value ≠ []
    apply List.ne_nil_of_length_pos
    have := assignAt_length_le s.currentRecipe.steps index value
    omega

theorem applyStepEdits_keep_slot (s : App) (edits : List StepEdit)
    (h : s.currentRecipe.steps ≠ []) : (applyStepEdits s edits).currentRecipe.steps ≠ [] := by
  induction edits generalizing s with
  | nil => exact h
  | cons edit edits ih => exact ih (applyStepEdit s edit) (applyStepEdit_keeps_slot s edit h)

/-- A draft made by `showAddRecipe` keeps at least one step slot under every sequence of
`addStep`, `removeStep` and `updateStep`. -/
theorem showAddRecipe_keeps_slot (s₀ : App) (edits : List StepEdit) :
    (applyStepEdits (showAddRecipe s₀) edits).currentRecipe.steps ≠ [] :=
  applyStepEdits_keep_slot _ edits (by simp [showAddRecipe])

/-- A draft opened by `editRecipe` on a recipe with at least one step keeps at least one
step slot under every sequence of `addStep`, `removeStep` and `updateStep`. -/
theorem editRecipe_keeps_slot (s : App) (id : ℤ) (r : Recipe) (edits : List StepEdit)
    (hopen : s.recipes.find? (fun x => decide (x.id = id)) = some r) (hsteps : r.steps ≠ []) :
    (applyStepEdits (editRecipe s id) edits).currentRecipe.steps ≠ [] := by
  apply applyStepEdits_keep_slot
  simp [editRecipe, hopen, hsteps]

/-- The steps of a committed recipe are the draft steps that are not blank; when every
draft step is blank the committed recipe has no step. -/
theorem buildRecipe_steps_nil (toLowerCase : Str → Str) (s : App) (name : Str) (now : ℤ)
    (nowIso : Str) (hblank : ∀ step ∈ s.currentRecipe.steps, trim step = []) :
    (buildRecipe toLowerCase s name now nowIso).steps = [] := by
  show s.currentRecipe.steps.filter (fun st => truthyStr (trim st)) = []
  rw [List.filter_eq_nil_iff]
  intro step hmem
  rw [hblank step hmem]
  decide

/-- C11 fails on the code.  In the store `eggApp` a new draft gets the line
`(egg, 200, "g")` and keeps the one blank step made by `showAddRecipe`; `saveRecipe`
commits it with the blank step stripped, so the committed recipe has no step;
`editRecipe` of that recipe copies the empty list, and the draft then has no step slot,
also after `removeStep(0)` and `updateStep(-1, "x")`. -/
theorem C11_edit_of_recipe_saved_with_blank_step :
    blankStepDraftApp.currentRecipe.steps = [[]]
    ∧ (∃ recipe : Recipe,
        (saveRecipe toLowerCaseLatin blankStepDraftApp (str "Omelette") 1700000000000
          (str "2023-11-14T22:13:20.000Z")).2 = SaveOutcome.saved recipe
        ∧ recipe.id = 1700000000000 ∧ recipe.steps = []
        ∧ blankStepSavedApp.recipes = [recipe]
        ∧ (editRecipe blankStepSavedApp 1700000000000).editingRecipe = some recipe)
    ∧ (editRecipe blankStepSavedApp 1700000000000).currentRecipe.steps = []
    ∧ (applyStepEdits (editRecipe blankStepSavedApp 1700000000000)
        [StepEdit.removeStep 0, StepEdit.updateStep (-1) (str "x")]).currentRecipe.steps
        = [] := by
  have hname : trim (str "Omelette") ≠ [] := by decide
  have hlines : blankStepDraftApp.currentRecipe.ingredients ≠ [] := by decide
  have h1 := (truthyStr_eq_true_iff _).2 hname
  have hnone : blankStepDraftApp.editingRecipe = none := rfl
  have hrecipes : blankStepDraftApp.recipes = [] := rfl
  have hsaved : blankStepSavedApp.recipes
      = [buildRecipe toLowerCaseLatin blankStepDraftApp (trim (str "Omelette")) 1700000000000
          (str "2023-11-14T22:13:20.000Z")] := by
    simp [blankStepSavedApp, saveRecipe, h1, hlines, hnone, hrecipes, saveToStorage]
  have hid : (buildRecipe toLowerCaseLatin blankStepDraftApp (trim (str "Omelette"))
      1700000000000 (str "2023-11-14T22:13:20.000Z")).id = 1700000000000 := rfl
  refine ⟨by decide, ⟨_, saveRecipe_saved _ _ _ _ _ hname hlines, hid, ?_, hsaved, ?_⟩,
    by decide, by decide⟩
  · exact buildRecipe_steps_nil _ _ _ _ _ (by decide)
  · simp [editRecipe, hsaved, hid]

end RecipeManager
